import Mathlib

/-!
Verification development for the Text-to-Speech batch conversion tool
(single Python source file, v0.2).  Python strings are modelled as lists
of characters; the Python string primitives used by the program
(`strip`, `split`, `replace`, `endswith`, substring containment, the
`or` idiom on strings) are embedded as executable Lean functions, and
the worker thread's per-item processing and scan loop are embedded as
pure functions over an explicit environment (file contents, external
invocation outcomes) producing an event trace.
-/

/-- Python strings modelled as lists of characters. -/
abbrev Str := List Char

/-- Characters removed by Python `str.strip()` with no argument. -/
def pyIsSpace (c : Char) : Bool :=
  c = ' ' || c = '\t' || c = '\n' || c = '\r' || c = '\x0b' || c = '\x0c'

/-- Python `s.strip()`: drop whitespace from both ends. -/
def pyStrip (s : Str) : Str :=
  ((s.dropWhile pyIsSpace).reverse.dropWhile pyIsSpace).reverse

/-- Python `s.split(sep)` for a one-character separator (the code only
splits on a semicolon). -/
def splitChar (sep : Char) : Str → List Str
  | [] => [[]]
  | c :: rest =>
    if c = sep then [] :: splitChar sep rest
    else
      match splitChar sep rest with
      | [] => [[c]]
      | h :: t => (c :: h) :: t

/-- Python `pat in s`: substring containment. -/
def containsSub (s pat : Str) : Bool :=
  match s with
  | [] => pat.isPrefixOf ([] : Str)
  | c :: rest => pat.isPrefixOf (c :: rest) || containsSub rest pat

/-- Worker for `pyReplace`.  The `fuel` argument is a structural bound
on the number of steps: each step either consumes one character or one
occurrence of `old` (at least one character when `old` is nonempty), so
with `fuel` at least the length of the scanned string the result is
exactly Python's left-to-right non-overlapping replacement. -/
def pyReplaceGo (old new : Str) : Nat → Str → Str
  | _, [] => []
  | 0, s => s
  | fuel + 1, c :: rest =>
    if old.isPrefixOf (c :: rest) then
      new ++ pyReplaceGo old new fuel ((c :: rest).drop old.length)
    else
      c :: pyReplaceGo old new fuel rest

/-- Python `s.replace(old, new)` for nonempty `old`: replace every
non-overlapping occurrence, scanning left to right.  (The program only
calls `replace` with the nonempty patterns `"*."` and `".txt"`.) -/
def pyReplace (old new : Str) (s : Str) : Str :=
  pyReplaceGo old new s.length s

/-- Python `filename.endswith(ext)`. -/
def endswith (s suffix : Str) : Bool := suffix.isSuffixOf s

/-- Python `a or b` specialised to strings: empty strings are falsy. -/
def pyOr (a b : Str) : Str := if a = [] then b else a

/-- The filter expression matching everything, `"*.*"`. -/
def starDotStar : Str := "*.*".data

/-- The glob marker `"*."`. -/
def starDot : Str := "*.".data

/-- A single dot, the replacement target in the filter code. -/
def dotStr : Str := ".".data

/-- The loop body of `matches_filter` over the split filter parts: the
first part that contains `"*."` and whose derived suffix matches the
filename returns `True`; otherwise the loop falls through to `False`. -/
def filterLoop (filename : Str) : List Str → Bool
  | [] => false
  | fe :: rest =>
    if containsSub fe starDot then
      if endswith filename (pyReplace starDot dotStr fe) then true
      else filterLoop filename rest
    else filterLoop filename rest

/-- Embedding of `ConversionThread.matches_filter` (identical to
`Window.matches_filter`): `"*.*"` matches everything; otherwise, when
the filter contains `"*."`, split on semicolons, strip each part, and
accept when some part containing `"*."` yields a matching suffix after
`"*." -> "."` replacement; any other filter matches nothing. -/
def matches_filter (file_filter : Str) (filename : Str) : Bool :=
  if file_filter = starDotStar then true
  else if containsSub file_filter starDot then
    filterLoop filename ((splitChar ';' file_filter).map pyStrip)
  else false

/-- The `".txt"` literal used in the output-name derivation. -/
def txtExt : Str := ".txt".data

/-- The `".mp3"` literal used in the output-name derivation. -/
def mp3Ext : Str := ".mp3".data

/-- Embedding of `fn.replace('.txt', '.mp3')`, the output filename
derivation from `ConversionThread.run`. -/
def deriveOutputName (fn : Str) : Str := pyReplace txtExt mp3Ext fn

/-- Embedding of `os.path.join` (POSIX convention, sufficient for the
claims, which only use the join to pair a directory with a name). -/
def osJoin (a b : Str) : Str :=
  if b.head? = some '/' then b
  else if a = [] ∨ a.getLast? = some '/' then a ++ b
  else a ++ "/".data ++ b

/-- Embedding of `os.path.join(dirpath, fn.replace('.txt', '.mp3'))`. -/
def deriveOutputPath (dirpath fn : Str) : Str :=
  osJoin dirpath (deriveOutputName fn)

/-- The log message prefix for the per-item start line. -/
def msgConverting : Str := "正在转换: ".data

/-- The log message prefix for an empty file that is skipped. -/
def msgSkipped : Str := "⚠ 跳过空文件: ".data

/-- The log message prefix for a successful conversion. -/
def msgConverted : Str := "✓ 已转换: ".data

/-- The arrow between source name and derived output name. -/
def msgArrow : Str := " -> ".data

/-- The log message prefix for a non-zero-exit failure. -/
def msgFailed : Str := "✗ 转换失败: ".data

/-- The log message prefix for a timed-out invocation. -/
def msgTimeoutPre : Str := "✗ 转换超时: ".data

/-- The log message prefix for an unclassified invocation error. -/
def msgErrorPre : Str := "✗ 错误: ".data

/-- The log message prefix for a read failure. -/
def msgReadFailed : Str := "✗ 读取文件失败: ".data

/-- The separator between a filename and a diagnostic excerpt. -/
def msgDash : Str := " - ".data

/-- The default diagnostic used when both stderr and stdout are empty. -/
def msgUnknownErr : Str := "未知错误".data

/-- The observable events of the worker thread: signal emissions,
temporary-file operations, the external invocation, the per-item
progress counter updates, the cooperative-flag consultations, and the
terminal signals. -/
inductive Event where
  | checked (k : Nat) (alive : Bool)
  | sigInfo (msg : Str)
  | sigConverting (fn : Str)
  | sigSkippedEmpty (fn : Str)
  | sigConverted (fn outName : Str)
  | sigFailed (fn excerpt : Str)
  | sigTimeout (fn : Str)
  | sigError (fn err : Str)
  | sigReadFailed (fn err : Str)
  | tmpCreated (content : Str)
  | invoked (voice content outPath : Str)
  | tmpUnlinkTried (ok : Bool)
  | progressUpdate (processed total : Nat)
  | finished
  | errorSig (err : Str)
deriving DecidableEq

/-- The rendered `progress_signal` text of an event, for the events
that correspond to a `progress_signal.emit` in the source; `none` for
the other events. -/
def renderEvent : Event → Option Str
  | .sigInfo m => some m
  | .sigConverting fn => some (msgConverting ++ fn)
  | .sigSkippedEmpty fn => some (msgSkipped ++ fn)
  | .sigConverted fn out => some (msgConverted ++ fn ++ msgArrow ++ out)
  | .sigFailed fn ex => some (msgFailed ++ fn ++ msgDash ++ ex)
  | .sigTimeout fn => some (msgTimeoutPre ++ fn)
  | .sigError fn e => some (msgErrorPre ++ fn ++ msgDash ++ e)
  | .sigReadFailed fn e => some (msgReadFailed ++ fn ++ msgDash ++ e)
  | _ => none

/-- Outcome of the attempt to read one source file. -/
inductive ReadResult where
  | ok (content : Str)
  | failed (err : Str)

/-- Outcome of one external `edge-tts` invocation: a completed process
with its exit code and captured streams, a timeout
(`subprocess.TimeoutExpired`), or another raised exception. -/
inductive InvokeResult where
  | completed (returncode : Int) (stdout stderr : Str)
  | timedOut
  | raised (err : Str)

/-- The environment of a run: for each source path, the read outcome,
the invocation outcome, and whether `os.unlink` on the staging file
would succeed. -/
structure Env where
  read : Str → ReadResult
  invoke : Str → InvokeResult
  unlinkOk : Str → Bool

/-- Embedding of the per-matched-file body of `ConversionThread.run`
(lines 60-120): derive the output path, emit the start line, read the
file, skip when the stripped content is empty, otherwise stage the
content into a temporary file and run the external command, unlinking
the staging file after the call returns (an unlink failure is
swallowed); classify the invocation outcome; finally increment the
processed counter and emit a progress update.  Returns the emitted
events and the new processed counter. -/
def processFile (voice dirpath fn : Str) (rd : ReadResult) (inv : InvokeResult)
    (unlinkOk : Bool) (processed total : Nat) : List Event × Nat :=
  let mp3Path := deriveOutputPath dirpath fn
  match rd with
  | .failed err =>
      ([.sigConverting fn, .sigReadFailed fn err,
        .progressUpdate (processed + 1) total], processed + 1)
  | .ok raw =>
    let content := pyStrip raw
    if content = [] then
      ([.sigConverting fn, .sigSkippedEmpty fn,
        .progressUpdate (processed + 1) total], processed + 1)
    else
      let invEvents : List Event :=
        match inv with
        | .completed rc so se =>
            [.tmpUnlinkTried unlinkOk] ++
            (if rc = 0 then [Event.sigConverted fn (deriveOutputName fn)]
             else [Event.sigFailed fn ((pyOr se (pyOr so msgUnknownErr)).take 100)])
        | .timedOut => [.sigTimeout fn]
        | .raised err => [.sigError fn err]
      ([.sigConverting fn, .tmpCreated content, .invoked voice content mp3Path] ++
         invEvents ++ [.progressUpdate (processed + 1) total], processed + 1)

/-- The cooperative flag read at check number `k`: with `stopAt = some
t` the flag has been cleared by the time of the `t`-th consultation
(`stop()` only ever clears it, so it stays cleared); with `none` the
flag is never cleared. -/
def aliveFlag (stopAt : Option Nat) (k : Nat) : Bool :=
  match stopAt with
  | none => true
  | some t => decide (k < t)

/-- One directory visited by `os.walk`: its path and its filenames. -/
structure DirEntry where
  dirpath : Str
  filenames : List Str

/-- Result of the scan loop: the event trace, the source paths for
which the per-file body ran (in order), the final processed counter,
and the number of flag consultations performed. -/
structure LoopOut where
  trace : List Event
  visited : List Str
  processed : Nat
  checks : Nat

/-- Embedding of the inner `for fn in filenames` loop (lines 55-120):
before each filename the cooperative flag is consulted (one `checked`
event); a cleared flag breaks out; a filename passing `matches_filter`
is processed by `processFile`. -/
def fileLoop (filt voice : Str) (env : Env) (stopAt : Option Nat) (dirpath : Str)
    (total : Nat) : List Str → Nat → Nat → LoopOut
  | [], p, k => ⟨[], [], p, k⟩
  | fn :: rest, p, k =>
    if aliveFlag stopAt k then
      if matches_filter filt fn then
        let fpath := osJoin dirpath fn
        let step := processFile voice dirpath fn (env.read fpath) (env.invoke fpath)
          (env.unlinkOk fpath) p total
        let out := fileLoop filt voice env stopAt dirpath total rest step.2 (k + 1)
        ⟨Event.checked k true :: step.1 ++ out.trace, fpath :: out.visited,
          out.processed, out.checks⟩
      else
        let out := fileLoop filt voice env stopAt dirpath total rest p (k + 1)
        ⟨Event.checked k true :: out.trace, out.visited, out.processed, out.checks⟩
    else ⟨[Event.checked k false], [], p, k + 1⟩

/-- Embedding of the outer `for (dirpath, dirnames, filenames) in
os.walk(...)` processing loop (lines 51-120): the flag is consulted
before each directory; a cleared flag breaks out of the whole scan. -/
def dirLoop (filt voice : Str) (env : Env) (stopAt : Option Nat)
    (total : Nat) : List DirEntry → Nat → Nat → LoopOut
  | [], p, k => ⟨[], [], p, k⟩
  | e :: rest, p, k =>
    if aliveFlag stopAt k then
      let inner := fileLoop filt voice env stopAt e.dirpath total e.filenames p (k + 1)
      let outer := dirLoop filt voice env stopAt total rest inner.processed inner.checks
      ⟨Event.checked k true :: inner.trace ++ outer.trace,
        inner.visited ++ outer.visited, outer.processed, outer.checks⟩
    else ⟨[Event.checked k false], [], p, k + 1⟩

/-- Embedding of the up-front counting pass (lines 41-45): walk the
tree and count the filenames accepted by the filter. -/
def countPass (filt : Str) (walk : List DirEntry) : Nat :=
  walk.foldl
    (fun total e =>
      e.filenames.foldl (fun t fn => if matches_filter filt fn then t + 1 else t) total)
    0

/-- The matched source paths of a walk, in traversal order. -/
def matchedPaths (filt : Str) (walk : List DirEntry) : List Str :=
  walk.flatMap (fun e => (e.filenames.filter (matches_filter filt)).map (osJoin e.dirpath))

/-- The update-check banner emitted before the counting pass. -/
def msgCheckingUpdate : Str := "正在检查并更新 edge-tts...".data

/-- Embedding of the body of the `try` block of `ConversionThread.run`
(lines 35-120): the update banner and the update result message, the
counting pass, the initial progress update, then the scan loop. -/
def runBody (filt voice : Str) (env : Env) (stopAt : Option Nat)
    (walk : List DirEntry) (updateMsg : Str) : List Event :=
  [Event.sigInfo msgCheckingUpdate, Event.sigInfo updateMsg,
   Event.progressUpdate 0 (countPass filt walk)] ++
  (dirLoop filt voice env stopAt (countPass filt walk) walk 0 0).trace

/-- Embedding of `ConversionThread.run` when no exception escapes the
`try` body: the body runs to its end (normally or by cooperative
cancellation) and the `finally` block emits the completion signal. -/
def runConversion (filt voice : Str) (env : Env) (stopAt : Option Nat)
    (walk : List DirEntry) (updateMsg : Str) : List Event :=
  runBody filt voice env stopAt walk updateMsg ++ [Event.finished]

/-- Embedding of `ConversionThread.run` when an unclassified exception
interrupts the `try` body after a prefix of its events: the `except`
clause emits the fatal error signal and the `finally` block still emits
the completion signal. -/
def runRaising (bodyPrefix : List Event) (err : Str) : List Event :=
  bodyPrefix ++ [Event.errorSig err, Event.finished]

/-- The indeterminate estimator message. -/
def msgCalculating : Str := "计算中...".data

/-- The estimator message prefix. -/
def msgEta : Str := "预计剩余时间: ".data

/-- The hours unit label. -/
def msgHours : Str := "小时".data

/-- The minutes unit label. -/
def msgMinutes : Str := "分钟".data

/-- The seconds unit label. -/
def msgSeconds : Str := "秒".data

/-- Decimal rendering of an integer, as Python prints it. -/
def intToStr (i : Int) : Str := (toString i).data

/-- Python floor-division-based modulo on rationals (the `%` of floats
for a positive modulus). -/
def pyMod (a b : ℚ) : ℚ := a - b * ((Int.floor (a / b) : Int) : ℚ)

/-- Python truthiness of the optional start timestamp: `None` and the
timestamp `0.0` are falsy. -/
def pyTruthyTime : Option ℚ → Bool
  | none => false
  | some x => decide (x ≠ 0)

/-- State of `ProgressEstimator` (lines 261-293): optional start
timestamp, total count, completed count.  Timestamps are modelled as
rationals. -/
structure ProgressEstimator where
  start_time : Option ℚ
  total_files : Nat
  completed_files : Nat

/-- Embedding of `ProgressEstimator.start`. -/
def ProgressEstimator.start (now : ℚ) (total : Nat) : ProgressEstimator :=
  ⟨some now, total, 0⟩

/-- Embedding of `ProgressEstimator.update` at time `now`: increment
the completed count; when the count is positive and the start
timestamp truthy, estimate the remaining time as
`(total - completed) * (elapsed / completed)`, decompose it with floor
division into hours, minutes and seconds, and render the highest
non-zero unit pair; otherwise report the indeterminate message. -/
def ProgressEstimator.update (s : ProgressEstimator) (now : ℚ) :
    ProgressEstimator × Str :=
  let s2 : ProgressEstimator := ⟨s.start_time, s.total_files, s.completed_files + 1⟩
  if 0 < s2.completed_files ∧ pyTruthyTime s2.start_time = true then
    match s2.start_time with
    | none => (s2, msgCalculating)
    | some t0 =>
      let elapsed : ℚ := now - t0
      let avg : ℚ := elapsed / (s2.completed_files : ℚ)
      let remaining : ℚ := (s2.total_files : ℚ) - (s2.completed_files : ℚ)
      let est : ℚ := remaining * avg
      let hours : Int := Int.floor (est / 3600)
      let minutes : Int := Int.floor (pyMod est 3600 / 60)
      let seconds : Int := Int.floor (pyMod est 60)
      if 0 < hours then
        (s2, msgEta ++ intToStr hours ++ msgHours ++ intToStr minutes ++ msgMinutes)
      else if 0 < minutes then
        (s2, msgEta ++ intToStr minutes ++ msgMinutes ++ intToStr seconds ++ msgSeconds)
      else
        (s2, msgEta ++ intToStr seconds ++ msgSeconds)
  else (s2, msgCalculating)

/-- The remaining-time formula stated by the specification:
`(total - completed) * (elapsed / completed)` with `completed = c + 1`
after the completion being handled. -/
def specEstimate (total c : Nat) (elapsed : ℚ) : ℚ :=
  ((total : ℚ) - ((c : ℚ) + 1)) * (elapsed / ((c : ℚ) + 1))

/-- Whether an event is a consultation of the cooperative flag. -/
def isChecked : Event → Bool
  | .checked _ _ => true
  | _ => false

/-- Whether an event is a consultation that observed a cleared flag. -/
def isDeadCheck : Event → Bool
  | .checked _ false => true
  | _ => false

/-- Whether an event is a consultation that observed a set flag. -/
def isAliveCheck : Event → Bool
  | .checked _ true => true
  | _ => false

/-- Whether an event starts the processing of one file. -/
def isStart : Event → Bool
  | .sigConverting _ => true
  | _ => false

/-- Whether an event is the completion signal. -/
def isFinishedEvt : Event → Bool
  | .finished => true
  | _ => false

/-- Whether an event is the fatal-error signal. -/
def isErrorSigEvt : Event → Bool
  | .errorSig _ => true
  | _ => false

/-- Whether an event records the per-item outcome (success, failure,
timeout, unclassified error, read failure, or empty-skip). -/
def isOutcomeSignal : Event → Bool
  | .sigConverted _ _ => true
  | .sigFailed _ _ => true
  | .sigTimeout _ => true
  | .sigError _ _ => true
  | .sigReadFailed _ _ => true
  | .sigSkippedEmpty _ => true
  | _ => false

/-- Whether an event is the unlink attempt on the staging file. -/
def isTmpUnlink : Event → Bool
  | .tmpUnlinkTried _ => true
  | _ => false

/-- Whether an event is the creation of the staging file. -/
def isTmpCreated : Event → Bool
  | .tmpCreated _ => true
  | _ => false

/-- The trace restricted to the externally observable events (the flag
consultations removed). -/
def nonCheck (l : List Event) : List Event := l.filter (fun e => !isChecked e)

/-- After any consultation that observed a cleared flag, only further
cleared-flag consultations may follow: no file is started and no
notification is emitted once cancellation is acknowledged. -/
def quietAfterStop : List Event → Bool
  | [] => true
  | e :: rest => if isDeadCheck e then rest.all isDeadCheck else quietAfterStop rest

/-- Every file-start event is directly preceded by a consultation that
observed a set flag; `prev` is the event preceding the list (none at
the very beginning of the trace). -/
def startsChecked (prev : Option Event) : List Event → Bool
  | [] => true
  | e :: rest =>
    (if isStart e then
        match prev with
        | some q => isAliveCheck q
        | none => false
      else true)
      && startsChecked (some e) rest

/-- The last event of `prev :: l`, viewed from outside `l`. -/
def lastOf (prev : Option Event) (l : List Event) : Option Event :=
  match l.getLast? with
  | some e => some e
  | none => prev

/-- Erase the success flag of the staging-file unlink attempt; the code
swallows an unlink failure, so behaviour must not depend on the flag. -/
def forgetUnlink : Event → Event
  | .tmpUnlinkTried _ => .tmpUnlinkTried true
  | e => e

/-- Build a semicolon-separated filter expression from its parts, as a
user would type it (`*.ext1;*.ext2;...`). -/
def joinSemi : List Str → Str
  | [] => []
  | [s] => s
  | s :: s2 :: rest => s ++ ';' :: joinSemi (s2 :: rest)

/-- Whether an event is neither the completion signal nor the fatal
error signal. -/
def termFree (e : Event) : Bool := !(isFinishedEvt e || isErrorSigEvt e)

/-- Two appends with distinct equal-length left parts are distinct. -/
theorem append_ne_of_ne_same_length {p q a b : Str} (hlen : p.length = q.length)
    (hne : p ≠ q) : p ++ a ≠ q ++ b := by
  intro h
  exact hne (List.append_inj h hlen).1

/-- Two appends whose left parts are nonempty and begin with distinct
characters are distinct. -/
theorem append_ne_of_head_ne {p q a b : Str} (hne : p.head? ≠ q.head?)
    (hp : p ≠ []) (hq : q ≠ []) : p ++ a ≠ q ++ b := by
  cases p with
  | nil => exact absurd rfl hp
  | cons c p2 =>
    cases q with
    | nil => exact absurd rfl hq
    | cons d q2 =>
      intro h
      simp only [List.cons_append, List.cons.injEq] at h
      simp only [List.head?_cons, Option.some.injEq, Ne] at hne
      exact hne h.1

/-- The rendered timeout message is never equal to a rendered non-zero
exit failure message, whatever the filenames and excerpt. -/
theorem render_timeout_ne_failed (fn fn2 ex : Str) :
    renderEvent (Event.sigTimeout fn) ≠ renderEvent (Event.sigFailed fn2 ex) := by
  simp only [renderEvent, Ne, Option.some.injEq]
  rw [List.append_assoc, List.append_assoc]
  exact append_ne_of_ne_same_length (by decide) (by decide)

/-- The rendered empty-skip message is never equal to a rendered
failure message. -/
theorem render_skipped_ne_failed (fn fn2 ex : Str) :
    renderEvent (Event.sigSkippedEmpty fn) ≠ renderEvent (Event.sigFailed fn2 ex) := by
  simp only [renderEvent, Ne, Option.some.injEq]
  rw [List.append_assoc, List.append_assoc]
  exact append_ne_of_head_ne (by decide) (by decide) (by decide)

/-- The rendered empty-skip message is never equal to a rendered
timeout message. -/
theorem render_skipped_ne_timeout (fn fn2 : Str) :
    renderEvent (Event.sigSkippedEmpty fn) ≠ renderEvent (Event.sigTimeout fn2) := by
  simp only [renderEvent, Ne, Option.some.injEq]
  exact append_ne_of_head_ne (by decide) (by decide) (by decide)

/-- The rendered empty-skip message is never equal to a rendered
unclassified-error message. -/
theorem render_skipped_ne_error (fn fn2 e2 : Str) :
    renderEvent (Event.sigSkippedEmpty fn) ≠ renderEvent (Event.sigError fn2 e2) := by
  simp only [renderEvent, Ne, Option.some.injEq]
  rw [List.append_assoc, List.append_assoc]
  exact append_ne_of_head_ne (by decide) (by decide) (by decide)

/-- The rendered empty-skip message is never equal to a rendered
read-failure message. -/
theorem render_skipped_ne_readfailed (fn fn2 e2 : Str) :
    renderEvent (Event.sigSkippedEmpty fn) ≠ renderEvent (Event.sigReadFailed fn2 e2) := by
  simp only [renderEvent, Ne, Option.some.injEq]
  rw [List.append_assoc, List.append_assoc]
  exact append_ne_of_head_ne (by decide) (by decide) (by decide)

/-- C1: the claim states that for a file matched by filter `*.ext` the
derived output path is the source directory with the `.mp3` name; the
code instead computes `fn.replace('.txt', '.mp3')`, which leaves a
`.md` filename unchanged, so the derived output path for `d/stem.md`
matched by `*.md` is `d/stem.md` itself, not `d/stem.mp3`. -/
theorem c1_output_path_code_eval :
    matches_filter ("*.md".data) ("stem.md".data) = true ∧
    deriveOutputName ("stem.md".data) = "stem.md".data ∧
    deriveOutputPath ("d".data) ("stem.md".data) = "d/stem.md".data ∧
    ("d/stem.md".data : Str) ≠ "d/stem.mp3".data ∧
    deriveOutputName ("stem.txt".data) = "stem.mp3".data := by decide

/-- C9: a filter expression that is neither the literal `*.*` nor
contains the substring `*.` matches no filename at all. -/
theorem c9_malformed_filter_rejects_all (filt fn : Str)
    (h1 : filt ≠ starDotStar) (h2 : containsSub filt starDot = false) :
    matches_filter filt fn = false := by
  simp [matches_filter, h1, h2]

/-- Witness for C9 at the filter `txt` and the empty filter. -/
theorem c9_malformed_filter_rejects_all_witness :
    matches_filter ("txt".data) ("a.txt".data) = false ∧
    matches_filter ([] : Str) ("a.txt".data) = false :=
  ⟨c9_malformed_filter_rejects_all _ _ (by decide) (by decide),
   c9_malformed_filter_rejects_all _ _ (by decide) (by decide)⟩

/-- C4: a matched file whose content is empty after stripping is
counted as processed (counter incremented, one progress update), emits
a skip outcome, performs no staging and no external invocation, and its
skip message is distinct from every failure-family message. -/
theorem c4_empty_file_skipped (voice dirpath fn raw : Str) (inv : InvokeResult)
    (u : Bool) (p total : Nat) (h : pyStrip raw = []) :
    processFile voice dirpath fn (.ok raw) inv u p total =
      ([.sigConverting fn, .sigSkippedEmpty fn, .progressUpdate (p + 1) total], p + 1) ∧
    (∀ v c o, Event.invoked v c o ∉
      (processFile voice dirpath fn (.ok raw) inv u p total).1) ∧
    (∀ c, Event.tmpCreated c ∉
      (processFile voice dirpath fn (.ok raw) inv u p total).1) ∧
    (∀ fn2 ex, renderEvent (Event.sigSkippedEmpty fn) ≠
      renderEvent (Event.sigFailed fn2 ex)) ∧
    (∀ fn2, renderEvent (Event.sigSkippedEmpty fn) ≠
      renderEvent (Event.sigTimeout fn2)) ∧
    (∀ fn2 e2, renderEvent (Event.sigSkippedEmpty fn) ≠
      renderEvent (Event.sigError fn2 e2)) ∧
    (∀ fn2 e2, renderEvent (Event.sigSkippedEmpty fn) ≠
      renderEvent (Event.sigReadFailed fn2 e2)) := by
  refine ⟨by simp [processFile, h], ?_, ?_,
    fun fn2 ex => render_skipped_ne_failed fn fn2 ex,
    fun fn2 => render_skipped_ne_timeout fn fn2,
    fun fn2 e2 => render_skipped_ne_error fn fn2 e2,
    fun fn2 e2 => render_skipped_ne_readfailed fn fn2 e2⟩
  · intro v c o
    simp [processFile, h]
  · intro c
    simp [processFile, h]

/-- Witness for C4 at a whitespace-only file. -/
theorem c4_empty_file_skipped_witness :
    pyStrip ("  ".data) = [] ∧
    processFile ("v".data) ("d".data) ("b.txt".data) (.ok ("  ".data))
        .timedOut true 0 2 =
      ([.sigConverting ("b.txt".data), .sigSkippedEmpty ("b.txt".data),
        .progressUpdate 1 2], 1) :=
  ⟨by decide,
   (c4_empty_file_skipped ("v".data) ("d".data) ("b.txt".data) ("  ".data)
      .timedOut true 0 2 (by decide)).1⟩

/-- C5: for a non-empty staged file, the three invocation outcomes are
recorded distinctly: zero exit yields exactly the success signal
carrying the derived output name (the invocation itself carries the
derived output path); non-zero exit yields exactly the failure signal
carrying the first 100 characters of stderr-else-stdout-else-default;
timeout yields exactly the timeout signal, which differs from every
failure signal both as an event and as a rendered message. -/
theorem c5_outcome_taxonomy (voice dirpath fn raw so se : Str) (rc : Int)
    (u : Bool) (p total : Nat) (h : pyStrip raw ≠ []) :
    ((processFile voice dirpath fn (.ok raw) (.completed 0 so se) u p total).1.filter
        isOutcomeSignal = [Event.sigConverted fn (deriveOutputName fn)]) ∧
    (rc ≠ 0 →
      (processFile voice dirpath fn (.ok raw) (.completed rc so se) u p total).1.filter
        isOutcomeSignal =
          [Event.sigFailed fn ((pyOr se (pyOr so msgUnknownErr)).take 100)]) ∧
    ((processFile voice dirpath fn (.ok raw) .timedOut u p total).1.filter
        isOutcomeSignal = [Event.sigTimeout fn]) ∧
    (Event.invoked voice (pyStrip raw) (deriveOutputPath dirpath fn) ∈
      (processFile voice dirpath fn (.ok raw) (.completed 0 so se) u p total).1) ∧
    (∀ fn2 ex, Event.sigTimeout fn ≠ Event.sigFailed fn2 ex) ∧
    (∀ fn2 ex, renderEvent (Event.sigTimeout fn) ≠
      renderEvent (Event.sigFailed fn2 ex)) := by
  refine ⟨?_, ?_, ?_, ?_, ?_, fun fn2 ex => render_timeout_ne_failed fn fn2 ex⟩
  · simp [processFile, h, isOutcomeSignal, List.filter]
  · intro hrc
    simp [processFile, h, hrc, isOutcomeSignal, List.filter]
  · simp [processFile, h, isOutcomeSignal, List.filter]
  · simp [processFile, h]
  · intro fn2 ex
    simp

/-- Witness for C5 at a concrete non-empty file and all three
invocation outcomes. -/
theorem c5_outcome_taxonomy_witness :
    pyStrip ("hi".data) ≠ [] ∧
    ((processFile ("v".data) ("d".data) ("a.txt".data) (.ok ("hi".data))
        (.completed 0 ("out".data) ([] : Str)) true 0 1).1.filter isOutcomeSignal =
      [Event.sigConverted ("a.txt".data) ("a.mp3".data)]) ∧
    ((processFile ("v".data) ("d".data) ("a.txt".data) (.ok ("hi".data))
        (.completed 1 ("out".data) ("boom".data)) true 0 1).1.filter isOutcomeSignal =
      [Event.sigFailed ("a.txt".data) ("boom".data)]) ∧
    ((processFile ("v".data) ("d".data) ("a.txt".data) (.ok ("hi".data))
        .timedOut true 0 1).1.filter isOutcomeSignal =
      [Event.sigTimeout ("a.txt".data)]) := by
  have h := c5_outcome_taxonomy ("v".data) ("d".data) ("a.txt".data) ("hi".data)
    ("out".data) ("boom".data) 1 true 0 1 (by decide)
  have h0 := c5_outcome_taxonomy ("v".data) ("d".data) ("a.txt".data) ("hi".data)
    ("out".data) ([] : Str) 1 true 0 1 (by decide)
  refine ⟨by decide, ?_, ?_, ?_⟩
  · rw [h0.1]; decide
  · rw [h.2.1 (by decide)]; decide
  · rw [h.2.2.1]

/-- C3 counterexample: for the non-empty file `a.txt` whose invocation
times out, the staging file is created but no unlink is ever attempted,
so the claim that deletion happens on every outcome is false on the
timeout outcome. -/
theorem c3_counterexample :
    ((processFile ("v".data) ("d".data) ("a.txt".data) (.ok ("hello".data))
        .timedOut true 0 1).1.filter isTmpUnlink = []) ∧
    ((processFile ("v".data) ("d".data) ("a.txt".data) (.ok ("hello".data))
        .timedOut true 0 1).1.filter isTmpCreated =
      [Event.tmpCreated ("hello".data)]) := by decide

/-- C3 amended: for a non-empty staged file the staging file is always
created; the unlink is attempted exactly once when the invocation
returns an exit status (zero and non-zero alike) and the attempt's
failure is swallowed (the rest of the behaviour is independent of the
unlink outcome); when the invocation raises — timeout included — the
unlink is skipped and the staging file leaks. -/
theorem c3_amended_unlink (voice dirpath fn raw so se err : Str) (rc : Int)
    (u : Bool) (p total : Nat) (h : pyStrip raw ≠ []) :
    ((processFile voice dirpath fn (.ok raw) (.completed rc so se) u p total).1.filter
        isTmpUnlink = [Event.tmpUnlinkTried u]) ∧
    ((processFile voice dirpath fn (.ok raw) .timedOut u p total).1.filter
        isTmpUnlink = []) ∧
    ((processFile voice dirpath fn (.ok raw) (.raised err) u p total).1.filter
        isTmpUnlink = []) ∧
    ((processFile voice dirpath fn (.ok raw) (.completed rc so se) u p total).1.filter
        isTmpCreated = [Event.tmpCreated (pyStrip raw)]) ∧
    ((processFile voice dirpath fn (.ok raw) .timedOut u p total).1.filter
        isTmpCreated = [Event.tmpCreated (pyStrip raw)]) ∧
    ((processFile voice dirpath fn (.ok raw) (.completed rc so se) true p total).1.map
        forgetUnlink =
      (processFile voice dirpath fn (.ok raw) (.completed rc so se) false p total).1.map
        forgetUnlink) ∧
    ((processFile voice dirpath fn (.ok raw) (.completed rc so se) true p total).2 =
      (processFile voice dirpath fn (.ok raw) (.completed rc so se) false p total).2) := by
  by_cases hrc : rc = 0 <;>
    refine ⟨?_, ?_, ?_, ?_, ?_, ?_, ?_⟩ <;>
      simp [processFile, h, hrc, isTmpUnlink, isTmpCreated, forgetUnlink, List.filter]

/-- Witness for C3 amended at a concrete non-empty file. -/
theorem c3_amended_unlink_witness :
    pyStrip ("hello".data) ≠ [] ∧
    ((processFile ("v".data) ("d".data) ("a.txt".data) (.ok ("hello".data))
        (.completed 1 ([] : Str) ("e".data)) false 0 1).1.filter isTmpUnlink =
      [Event.tmpUnlinkTried false]) :=
  ⟨by decide,
   (c3_amended_unlink ("v".data) ("d".data) ("a.txt".data) ("hello".data)
      ([] : Str) ("e".data) ("x".data) 1 false 0 1 (by decide)).1⟩

/-- Splitting a string free of the separator yields that string alone. -/
theorem splitChar_no_sep (sep : Char) (s : Str) (h : ∀ c ∈ s, c ≠ sep) :
    splitChar sep s = [s] := by
  induction s with
  | nil => rfl
  | cons c rest ih =>
    have hc : c ≠ sep := h c (by simp)
    have hr := ih (fun d hd => h d (by simp [hd]))
    simp [splitChar, hc, hr]

/-- Splitting separates at the first separator when the part before it
is separator-free. -/
theorem splitChar_sep_append (sep : Char) (s t : Str) (h : ∀ c ∈ s, c ≠ sep) :
    splitChar sep (s ++ sep :: t) = s :: splitChar sep t := by
  induction s with
  | nil => simp [splitChar]
  | cons c rest ih =>
    have hc : c ≠ sep := h c (by simp)
    have hr := ih (fun d hd => h d (by simp [hd]))
    simp [splitChar, hc, hr]

/-- Splitting on semicolons inverts `joinSemi` when no part contains a
semicolon. -/
theorem splitChar_joinSemi (ps : List Str) (hne : ps ≠ [])
    (h : ∀ p ∈ ps, ∀ c ∈ p, c ≠ ';') :
    splitChar ';' (joinSemi ps) = ps := by
  induction ps with
  | nil => exact absurd rfl hne
  | cons p rest ih =>
    cases rest with
    | nil => exact splitChar_no_sep ';' p (h p (by simp))
    | cons q qs =>
      have h1 : splitChar ';' (p ++ ';' :: joinSemi (q :: qs)) =
          p :: splitChar ';' (joinSemi (q :: qs)) :=
        splitChar_sep_append ';' p _ (h p (by simp))
      have h2 := ih (by simp) (fun r hr => h r (by simp [hr]))
      simpa [joinSemi, h2] using h1

/-- A whitespace-free string is fixed by `pyStrip`. -/
theorem pyStrip_eq_self (s : Str) (h : ∀ c ∈ s, pyIsSpace c = false) :
    pyStrip s = s := by
  have hdrop : ∀ (l : Str), (∀ c ∈ l, pyIsSpace c = false) →
      l.dropWhile pyIsSpace = l := by
    intro l hl
    cases l with
    | nil => rfl
    | cons c r => simp [List.dropWhile_cons, hl c (by simp)]
  unfold pyStrip
  rw [hdrop s h, hdrop s.reverse (fun c hc => h c (List.mem_reverse.mp hc)),
    List.reverse_reverse]

/-- A star-free string is fixed by the `"*." -> "."` replacement,
whatever the fuel. -/
theorem pyReplaceGo_no_star (new : Str) (fuel : Nat) (s : Str)
    (h : ∀ c ∈ s, c ≠ '*') : pyReplaceGo starDot new fuel s = s := by
  induction s generalizing fuel with
  | nil => cases fuel <;> rfl
  | cons c rest ih =>
    cases fuel with
    | zero => rfl
    | succ f =>
      have hc : c ≠ '*' := h c (by simp)
      have hpre : starDot.isPrefixOf (c :: rest) = false := by
        have : starDot = ['*', '.'] := rfl
        rw [this]
        simp [List.isPrefixOf]
        intro hcc
        exact absurd hcc.symm hc
      simp [pyReplaceGo, hpre, ih f (fun d hd => h d (by simp [hd]))]

/-- The `"*." -> "."` replacement on a pattern `*.` followed by a
star-free extension yields `.` followed by the extension. -/
theorem pyReplace_star_pattern (e : Str) (h : ∀ c ∈ e, c ≠ '*') :
    pyReplace starDot dotStr (starDot ++ e) = dotStr ++ e := by
  have hpre : starDot.isPrefixOf (starDot ++ e) = true := by
    have : starDot = ['*', '.'] := rfl
    rw [this]
    simp [List.isPrefixOf]
  have hlen : (starDot ++ e).length = e.length + 2 := by
    simp [starDot]
  unfold pyReplace
  rw [hlen]
  have hshape : starDot ++ e = '*' :: '.' :: e := rfl
  rw [hshape]
  have hpre2 : starDot.isPrefixOf ('*' :: '.' :: e) = true := by
    rw [← hshape]; exact hpre
  simp only [pyReplaceGo, hpre2, if_true]
  have hdrop : ('*' :: '.' :: e).drop starDot.length = e := rfl
  rw [hdrop, pyReplaceGo_no_star dotStr (e.length + 1) e h]

/-- A string beginning with the marker `*.` contains it. -/
theorem containsSub_starDot_prefix (x : Str) :
    containsSub (starDot ++ x) starDot = true := by
  have hshape : starDot ++ x = '*' :: '.' :: x := rfl
  rw [hshape]
  have hpre : starDot.isPrefixOf ('*' :: '.' :: x) = true := by
    have : starDot = ['*', '.'] := rfl
    rw [this]
    simp [List.isPrefixOf]
  simp [containsSub, hpre]

/-- The filter loop accepts exactly when some part contains the marker
and yields a matching suffix. -/
theorem filterLoop_iff (fn : Str) (parts : List Str) :
    filterLoop fn parts = true ↔
      ∃ p ∈ parts, containsSub p starDot = true ∧
        endswith fn (pyReplace starDot dotStr p) = true := by
  induction parts with
  | nil => simp [filterLoop]
  | cons fe rest ih =>
    cases hc : containsSub fe starDot with
    | true =>
      cases he : endswith fn (pyReplace starDot dotStr fe) with
      | true =>
        simp only [filterLoop, hc, he, if_true]
        constructor
        · intro _
          exact ⟨fe, by simp, hc, he⟩
        · intro _
          trivial
      | false =>
        have hred : filterLoop fn (fe :: rest) = filterLoop fn rest := by
          simp [filterLoop, hc, he]
        rw [hred, ih]
        constructor
        · rintro ⟨p, hp, h1, h2⟩
          exact ⟨p, by simp [hp], h1, h2⟩
        · rintro ⟨p, hp, h1, h2⟩
          rcases List.mem_cons.mp hp with hfe | hrest
          · subst hfe
            rw [he] at h2
            exact absurd h2 (by simp)
          · exact ⟨p, hrest, h1, h2⟩
    | false =>
      have hred : filterLoop fn (fe :: rest) = filterLoop fn rest := by
        simp [filterLoop, hc]
      rw [hred, ih]
      constructor
      · rintro ⟨p, hp, h1, h2⟩
        exact ⟨p, by simp [hp], h1, h2⟩
      · rintro ⟨p, hp, h1, h2⟩
        rcases List.mem_cons.mp hp with hfe | hrest
        · subst hfe
          rw [hc] at h1
          exact absurd h1 (by simp)
        · exact ⟨p, hrest, h1, h2⟩

/-- A filter expression built from at least one `*.`-pattern with a
nonempty star-free extension is never the literal `*.*`. -/
theorem joinSemi_patterns_ne_star (e : Str) (ps : List Str)
    (hne : e ≠ []) (hstar : ∀ c ∈ e, c ≠ '*') :
    joinSemi ((starDot ++ e) :: ps) ≠ starDotStar := by
  cases e with
  | nil => exact absurd rfl hne
  | cons c e2 =>
    have hc : c ≠ '*' := hstar c (by simp)
    cases ps with
    | nil =>
      intro h
      have : '*' :: '.' :: c :: e2 = ['*', '.', '*'] := h
      simp only [List.cons.injEq] at this
      exact hc this.2.2.1
    | cons q qs =>
      intro h
      have : ('*' :: '.' :: c :: e2) ++ ';' :: joinSemi (q :: qs) =
          ['*', '.', '*'] := h
      simp only [List.cons_append, List.cons.injEq] at this
      exact hc this.2.2.1

/-- The filter expression built from patterns starts with the marker. -/
theorem joinSemi_patterns_shape (e : Str) (ps : List Str) :
    ∃ x, joinSemi ((starDot ++ e) :: ps) = starDot ++ x := by
  cases ps with
  | nil => exact ⟨e, rfl⟩
  | cons q qs =>
    exact ⟨e ++ ';' :: joinSemi (q :: qs), by simp [joinSemi, List.append_assoc]⟩

/-- Mapping a function that fixes every element of a list is the
identity on that list. -/
theorem map_eq_self_of_fixes {l : List Str} {f : Str → Str}
    (h : ∀ p ∈ l, f p = p) : l.map f = l := by
  induction l with
  | nil => rfl
  | cons a t ih => simp [h a (by simp), ih (fun p hp => h p (by simp [hp]))]

/-- Every character of a pattern `*.ext` is a star, a dot, or a
character of the extension. -/
theorem mem_pattern_cases (e : Str) (c : Char) (hc : c ∈ starDot ++ e) :
    c = '*' ∨ c = '.' ∨ c ∈ e := by
  rcases List.mem_append.mp hc with hm | hm
  · have hsd : starDot = ['*', '.'] := rfl
    rw [hsd] at hm
    rcases List.mem_cons.mp hm with h1 | h1
    · exact Or.inl h1
    · rcases List.mem_cons.mp h1 with h2 | h2
      · exact Or.inr (Or.inl h2)
      · exact absurd h2 (List.not_mem_nil c)
  · exact Or.inr (Or.inr hm)

/-- C2: for every filter expression of the form `*.ext1;...;*.extn`
(each extension nonempty, free of stars, semicolons and whitespace),
the filter predicate accepts exactly the filenames ending with one of
the `.exti` suffixes (character-exact, hence case-sensitive), and the
expression `*.*` accepts every filename. -/
theorem c2_filter_semantics (exts : List Str) (fn : Str) (hne : exts ≠ [])
    (hok : ∀ e ∈ exts, e ≠ [] ∧ ∀ c ∈ e, c ≠ '*' ∧ c ≠ ';' ∧ pyIsSpace c = false) :
    (matches_filter (joinSemi (exts.map (fun e => starDot ++ e))) fn = true ↔
      ∃ e ∈ exts, endswith fn ('.' :: e) = true) ∧
    matches_filter starDotStar fn = true := by
  constructor
  · cases exts with
    | nil => exact absurd rfl hne
    | cons e0 es =>
      have hok0 := hok e0 (by simp)
      have hF_ne : joinSemi (((e0 :: es).map (fun e => starDot ++ e))) ≠ starDotStar := by
        simpa using joinSemi_patterns_ne_star e0 (es.map (fun e => starDot ++ e))
          hok0.1 (fun c hc => (hok0.2 c hc).1)
      have hF_contains :
          containsSub (joinSemi (((e0 :: es).map (fun e => starDot ++ e)))) starDot
            = true := by
        obtain ⟨x, hx⟩ := joinSemi_patterns_shape e0 (es.map (fun e => starDot ++ e))
        simp only [List.map_cons]
        rw [hx]
        exact containsSub_starDot_prefix x
      have hsplit : splitChar ';' (joinSemi ((e0 :: es).map (fun e => starDot ++ e)))
          = (e0 :: es).map (fun e => starDot ++ e) := by
        apply splitChar_joinSemi _ (by simp)
        intro p hp c hc
        obtain ⟨e, he, rfl⟩ := List.mem_map.mp hp
        rcases mem_pattern_cases e c hc with h1 | h1 | h1
        · subst h1; decide
        · subst h1; decide
        · exact ((hok e he).2 c h1).2.1
      have hstrip : ((e0 :: es).map (fun e => starDot ++ e)).map pyStrip
          = (e0 :: es).map (fun e => starDot ++ e) := by
        apply map_eq_self_of_fixes
        intro p hp
        obtain ⟨e, he, rfl⟩ := List.mem_map.mp hp
        apply pyStrip_eq_self
        intro c hc
        rcases mem_pattern_cases e c hc with h1 | h1 | h1
        · subst h1; decide
        · subst h1; decide
        · exact ((hok e he).2 c h1).2.2
      rw [matches_filter, if_neg hF_ne, if_pos hF_contains, hsplit, hstrip,
        filterLoop_iff]
      constructor
      · rintro ⟨p, hp, h1, h2⟩
        obtain ⟨e, he, rfl⟩ := List.mem_map.mp hp
        rw [pyReplace_star_pattern e (fun c hc => ((hok e he).2 c hc).1)] at h2
        exact ⟨e, he, h2⟩
      · rintro ⟨e, he, h2⟩
        refine ⟨starDot ++ e, List.mem_map.mpr ⟨e, he, rfl⟩,
          containsSub_starDot_prefix e, ?_⟩
        rw [pyReplace_star_pattern e (fun c hc => ((hok e he).2 c hc).1)]
        exact h2
  · simp [matches_filter]

/-- Witness for C2 at the filter `*.txt;*.md`: `a.md` is accepted,
`a.png` is rejected, and `*.*` accepts a bare name. -/
theorem c2_filter_semantics_witness :
    matches_filter ("*.txt;*.md".data) ("a.md".data) = true ∧
    matches_filter ("*.txt;*.md".data) ("a.png".data) = false ∧
    matches_filter starDotStar ("noext".data) = true := by
  have h := c2_filter_semantics ["txt".data, "md".data] ("a.md".data)
    (by decide) (by decide)
  have h2 := c2_filter_semantics ["txt".data, "md".data] ("a.png".data)
    (by decide) (by decide)
  have hjoin : joinSemi ((["txt".data, "md".data] : List Str).map
      (fun e => starDot ++ e)) = "*.txt;*.md".data := by decide
  refine ⟨?_, ?_, ?_⟩
  · rw [← hjoin]
    exact h.1.mpr ⟨"md".data, by decide, by decide⟩
  · rw [← hjoin]
    cases hm : matches_filter (joinSemi ((["txt".data, "md".data] : List Str).map
        (fun e => starDot ++ e))) ("a.png".data)
    · rfl
    · obtain ⟨e, he, hend⟩ := h2.1.mp hm
      rcases List.mem_cons.mp he with h1 | h1
      · subst h1; exact absurd hend (by decide)
      · rcases List.mem_cons.mp h1 with h3 | h3
        · subst h3; exact absurd hend (by decide)
        · exact absurd h3 (List.not_mem_nil e)
  · exact (c2_filter_semantics ["txt".data] ("noext".data) (by decide)
      (by decide)).2

/-- The inner counting fold adds the number of matching filenames. -/
theorem countFold_inner (filt : Str) (fns : List Str) (t : Nat) :
    fns.foldl (fun t fn => if matches_filter filt fn then t + 1 else t) t =
      t + (fns.filter (matches_filter filt)).length := by
  induction fns generalizing t with
  | nil => simp
  | cons fn rest ih =>
    cases hm : matches_filter filt fn with
    | true => simp [List.foldl_cons, hm, ih, List.filter_cons]; omega
    | false => simp [List.foldl_cons, hm, ih, List.filter_cons]

/-- The counting pass counts exactly the matched paths. -/
theorem countPass_eq_length (filt : Str) (walk : List DirEntry) :
    countPass filt walk = (matchedPaths filt walk).length := by
  have hgen : ∀ (w : List DirEntry) (t : Nat),
      w.foldl (fun total e => e.filenames.foldl
          (fun t fn => if matches_filter filt fn then t + 1 else t) total) t =
        t + (matchedPaths filt w).length := by
    intro w
    induction w with
    | nil => intro t; simp [matchedPaths]
    | cons e rest ih =>
      intro t
      rw [List.foldl_cons, countFold_inner, ih]
      simp [matchedPaths]
      omega
  have := hgen walk 0
  simpa [countPass] using this

/-- With the flag never cleared, the inner loop visits exactly the
matching filenames of the directory, in order. -/
theorem fileLoop_none_visited (filt voice : Str) (env : Env) (d : Str)
    (total : Nat) (fns : List Str) (p k : Nat) :
    (fileLoop filt voice env none d total fns p k).visited =
      (fns.filter (matches_filter filt)).map (osJoin d) := by
  induction fns generalizing p k with
  | nil => simp [fileLoop]
  | cons fn rest ih =>
    cases hm : matches_filter filt fn with
    | true => simp [fileLoop, aliveFlag, hm, List.filter_cons, ih]
    | false => simp [fileLoop, aliveFlag, hm, List.filter_cons, ih]

/-- With the flag never cleared, the inner loop increments the
processed counter once per matching filename. -/
theorem fileLoop_none_processed (filt voice : Str) (env : Env) (d : Str)
    (total : Nat) (fns : List Str) (p k : Nat) :
    (fileLoop filt voice env none d total fns p k).processed =
      p + (fns.filter (matches_filter filt)).length := by
  induction fns generalizing p k with
  | nil => simp [fileLoop]
  | cons fn rest ih =>
    cases hm : matches_filter filt fn with
    | true =>
      simp [fileLoop, aliveFlag, hm, List.filter_cons, ih, processFile]
      cases henv : env.read (osJoin d fn) with
      | ok raw =>
        by_cases hs : pyStrip raw = [] <;>
          cases env.invoke (osJoin d fn) <;>
            simp [processFile, henv, hs] <;> omega
      | failed err => simp [processFile, henv]; omega
    | false => simp [fileLoop, aliveFlag, hm, List.filter_cons, ih]

/-- With the flag never cleared, the scan visits exactly the matched
paths of the walk, in order. -/
theorem dirLoop_none_visited (filt voice : Str) (env : Env) (total : Nat)
    (walk : List DirEntry) (p k : Nat) :
    (dirLoop filt voice env none total walk p k).visited =
      matchedPaths filt walk := by
  induction walk generalizing p k with
  | nil => simp [dirLoop, matchedPaths]
  | cons e rest ih =>
    simp [dirLoop, aliveFlag, fileLoop_none_visited, ih, matchedPaths]

/-- With the flag never cleared, the scan increments the processed
counter once per matched path. -/
theorem dirLoop_none_processed (filt voice : Str) (env : Env) (total : Nat)
    (walk : List DirEntry) (p k : Nat) :
    (dirLoop filt voice env none total walk p k).processed =
      p + (matchedPaths filt walk).length := by
  induction walk generalizing p k with
  | nil => simp [dirLoop, matchedPaths]
  | cons e rest ih =>
    simp [dirLoop, aliveFlag, fileLoop_none_processed, ih, matchedPaths]
    omega

/-- C6: with the tree unchanged between the passes and the run not
cancelled, the counting pass reports exactly the number of matched
paths, the scan visits exactly those paths in order — so each matched
file is processed exactly once, with no retries — the processed counter
ends at that count, every visited path comes from a matching filename
of the walk, and no non-matching file is ever visited. -/
theorem c6_two_pass_exactly_once (filt voice : Str) (env : Env)
    (walk : List DirEntry) (total : Nat) :
    (dirLoop filt voice env none total walk 0 0).visited =
      matchedPaths filt walk ∧
    countPass filt walk = (matchedPaths filt walk).length ∧
    (dirLoop filt voice env none total walk 0 0).processed =
      countPass filt walk ∧
    (∀ q ∈ (dirLoop filt voice env none total walk 0 0).visited,
      ∃ e ∈ walk, ∃ fn ∈ e.filenames,
        matches_filter filt fn = true ∧ q = osJoin e.dirpath fn) ∧
    (∀ q, (dirLoop filt voice env none total walk 0 0).visited.count q =
      (matchedPaths filt walk).count q) := by
  refine ⟨dirLoop_none_visited filt voice env total walk 0 0,
    countPass_eq_length filt walk, ?_, ?_, ?_⟩
  · rw [dirLoop_none_processed, countPass_eq_length]
    omega
  · intro q hq
    rw [dirLoop_none_visited] at hq
    simp only [matchedPaths, List.mem_flatMap, List.mem_map, List.mem_filter] at hq
    obtain ⟨e, he, fn, ⟨hfn, hm⟩, rfl⟩ := hq
    exact ⟨e, he, fn, hfn, hm, rfl⟩
  · intro q
    rw [dirLoop_none_visited]

/-- Witness for C6 at the specification's example tree: `a.txt`,
`b.txt`, `c.md` under one directory with filter `*.txt`. -/
theorem c6_two_pass_exactly_once_witness :
    (dirLoop ("*.txt".data) ("v".data)
        ⟨fun _ => .ok ("hi".data), fun _ => .completed 0 [] [], fun _ => true⟩
        none 2 [⟨"root".data, ["a.txt".data, "b.txt".data, "c.md".data]⟩]
        0 0).visited =
      matchedPaths ("*.txt".data)
        [⟨"root".data, ["a.txt".data, "b.txt".data, "c.md".data]⟩] ∧
    matchedPaths ("*.txt".data)
        [⟨"root".data, ["a.txt".data, "b.txt".data, "c.md".data]⟩] =
      ["root/a.txt".data, "root/b.txt".data] ∧
    countPass ("*.txt".data)
        [⟨"root".data, ["a.txt".data, "b.txt".data, "c.md".data]⟩] = 2 :=
  ⟨(c6_two_pass_exactly_once ("*.txt".data) ("v".data)
      ⟨fun _ => .ok ("hi".data), fun _ => .completed 0 [] [], fun _ => true⟩
      [⟨"root".data, ["a.txt".data, "b.txt".data, "c.md".data]⟩] 2).1,
   by decide, by decide⟩

/-- Per-item processing emits neither the completion signal nor the
fatal error signal. -/
theorem processFile_termFree (voice dirpath fn : Str) (rd : ReadResult)
    (inv : InvokeResult) (u : Bool) (p total : Nat) :
    (processFile voice dirpath fn rd inv u p total).1.all termFree = true := by
  cases rd with
  | failed err => simp [processFile, termFree, isFinishedEvt, isErrorSigEvt]
  | ok raw =>
    by_cases hs : pyStrip raw = []
    · simp [processFile, hs, termFree, isFinishedEvt, isErrorSigEvt]
    · cases inv with
      | completed rc so se =>
        by_cases hrc : rc = 0 <;>
          simp [processFile, hs, hrc, termFree, isFinishedEvt, isErrorSigEvt]
      | timedOut => simp [processFile, hs, termFree, isFinishedEvt, isErrorSigEvt]
      | raised err => simp [processFile, hs, termFree, isFinishedEvt, isErrorSigEvt]

/-- The inner loop emits neither terminal signal. -/
theorem fileLoop_termFree (filt voice : Str) (env : Env) (stopAt : Option Nat)
    (d : Str) (total : Nat) (fns : List Str) (p k : Nat) :
    (fileLoop filt voice env stopAt d total fns p k).trace.all termFree = true := by
  induction fns generalizing p k with
  | nil => simp [fileLoop]
  | cons fn rest ih =>
    cases ha : aliveFlag stopAt k with
    | false => simp [fileLoop, ha, termFree, isFinishedEvt, isErrorSigEvt]
    | true =>
      cases hm : matches_filter filt fn with
      | true =>
        simp [fileLoop, ha, hm, List.all_append, processFile_termFree, ih,
          termFree, isFinishedEvt, isErrorSigEvt]
      | false =>
        simp [fileLoop, ha, hm, ih, termFree, isFinishedEvt, isErrorSigEvt]

/-- The scan loop emits neither terminal signal. -/
theorem dirLoop_termFree (filt voice : Str) (env : Env) (stopAt : Option Nat)
    (total : Nat) (walk : List DirEntry) (p k : Nat) :
    (dirLoop filt voice env stopAt total walk p k).trace.all termFree = true := by
  induction walk generalizing p k with
  | nil => simp [dirLoop]
  | cons e rest ih =>
    cases ha : aliveFlag stopAt k with
    | false => simp [dirLoop, ha, termFree, isFinishedEvt, isErrorSigEvt]
    | true =>
      simp [dirLoop, ha, List.all_append, fileLoop_termFree, ih,
        termFree, isFinishedEvt, isErrorSigEvt]

/-- The whole `try` body emits neither terminal signal. -/
theorem runBody_termFree (filt voice : Str) (env : Env) (stopAt : Option Nat)
    (walk : List DirEntry) (updMsg : Str) :
    (runBody filt voice env stopAt walk updMsg).all termFree = true := by
  simp [runBody, List.all_append, dirLoop_termFree,
    termFree, isFinishedEvt, isErrorSigEvt]

/-- A terminal-signal-free list counts zero of either terminal
signal. -/
theorem countP_zero_of_termFree {l : List Event} (h : l.all termFree = true) :
    l.countP isFinishedEvt = 0 ∧ l.countP isErrorSigEvt = 0 := by
  rw [List.all_eq_true] at h
  constructor
  · rw [List.countP_eq_zero]
    intro e he
    have := h e he
    simp [termFree] at this
    simp [this.1]
  · rw [List.countP_eq_zero]
    intro e he
    have := h e he
    simp [termFree] at this
    simp [this.2]

/-- C10: on a run whose `try` body finishes (normal completion and
cooperative cancellation alike) the completion signal is emitted
exactly once and the fatal-error signal never; on a run whose body is
interrupted by an unclassified exception after any prefix of its
events, the fatal-error signal and the completion signal are each
emitted exactly once. -/
theorem c10_terminal_signals (filt voice : Str) (env : Env) (stopAt : Option Nat)
    (walk : List DirEntry) (updMsg : Str) :
    ((runConversion filt voice env stopAt walk updMsg).countP isFinishedEvt = 1 ∧
      (runConversion filt voice env stopAt walk updMsg).countP isErrorSigEvt = 0) ∧
    (∀ pre err, pre <+: runBody filt voice env stopAt walk updMsg →
      (runRaising pre err).countP isFinishedEvt = 1 ∧
      (runRaising pre err).countP isErrorSigEvt = 1) := by
  have hbody := countP_zero_of_termFree
    (runBody_termFree filt voice env stopAt walk updMsg)
  constructor
  · constructor
    · simp [runConversion, List.countP_append, hbody.1, List.countP_cons,
        isFinishedEvt]
    · simp [runConversion, List.countP_append, hbody.2, List.countP_cons,
        isErrorSigEvt]
  · intro pre err hpre
    have hpre_free : pre.all termFree = true := by
      rw [List.all_eq_true]
      intro e he
      have hmem : e ∈ runBody filt voice env stopAt walk updMsg :=
        hpre.sublist.subset he
      have := runBody_termFree filt voice env stopAt walk updMsg
      rw [List.all_eq_true] at this
      exact this e hmem
    have hzero := countP_zero_of_termFree hpre_free
    constructor
    · simp [runRaising, List.countP_append, hzero.1, List.countP_cons,
        isFinishedEvt, isErrorSigEvt]
    · simp [runRaising, List.countP_append, hzero.2, List.countP_cons,
        isFinishedEvt, isErrorSigEvt]

/-- Witness for C10 on a one-file walk, both for the completed run and
for a run interrupted right after the banner events. -/
theorem c10_terminal_signals_witness :
    ((runConversion ("*.txt".data) ("v".data)
        ⟨fun _ => .ok ("hi".data), fun _ => .completed 0 [] [], fun _ => true⟩
        none [⟨"root".data, ["a.txt".data]⟩] ("m".data)).countP isFinishedEvt = 1) ∧
    ((runRaising [] ("boom".data)).countP isFinishedEvt = 1 ∧
      (runRaising [] ("boom".data)).countP isErrorSigEvt = 1) :=
  ⟨(c10_terminal_signals ("*.txt".data) ("v".data)
      ⟨fun _ => .ok ("hi".data), fun _ => .completed 0 [] [], fun _ => true⟩
      none [⟨"root".data, ["a.txt".data]⟩] ("m".data)).1.1,
   (c10_terminal_signals ("*.txt".data) ("v".data)
      ⟨fun _ => .ok ("hi".data), fun _ => .completed 0 [] [], fun _ => true⟩
      none [⟨"root".data, ["a.txt".data]⟩] ("m".data)).2 [] ("boom".data)
      (List.nil_prefix)⟩

/-- A cleared-flag consultation is a consultation. -/
theorem isChecked_of_isDeadCheck {e : Event} (h : isDeadCheck e = true) :
    isChecked e = true := by
  cases e <;> simp_all [isDeadCheck, isChecked]

/-- An event that is no consultation is no cleared-flag consultation. -/
theorem isDeadCheck_eq_false_of_not_checked {e : Event} (h : isChecked e = false) :
    isDeadCheck e = false := by
  cases hd : isDeadCheck e
  · rfl
  · rw [isChecked_of_isDeadCheck hd] at h
    exact absurd h (by simp)

/-- Prepending an event free of cleared-flag consultations preserves
quietness. -/
theorem quietAfterStop_cons {e : Event} (h : isDeadCheck e = false)
    (l : List Event) : quietAfterStop (e :: l) = quietAfterStop l := by
  simp [quietAfterStop, h]

/-- Prepending a block free of cleared-flag consultations preserves
quietness. -/
theorem quietAfterStop_append {a : List Event}
    (h : ∀ e ∈ a, isDeadCheck e = false) (b : List Event) :
    quietAfterStop (a ++ b) = quietAfterStop b := by
  induction a with
  | nil => rfl
  | cons e a2 ih =>
    rw [List.cons_append, quietAfterStop_cons (h e (by simp)),
      ih (fun x hx => h x (by simp [hx]))]

/-- A list of cleared-flag consultations only is quiet. -/
theorem quietAfterStop_of_all_dead {l : List Event}
    (h : l.all isDeadCheck = true) : quietAfterStop l = true := by
  cases l with
  | nil => rfl
  | cons e rest =>
    rw [List.all_cons, Bool.and_eq_true] at h
    simp [quietAfterStop, h.1, h.2]

/-- A list free of cleared-flag consultations is quiet. -/
theorem quietAfterStop_of_no_dead {l : List Event}
    (h : ∀ e ∈ l, isDeadCheck e = false) : quietAfterStop l = true := by
  induction l with
  | nil => rfl
  | cons e rest ih =>
    rw [quietAfterStop_cons (h e (by simp))]
    exact ih (fun x hx => h x (by simp [hx]))

/-- Prefixes are preserved by appending a common block on the left. -/
theorem prefix_append_same {α : Type} {x a b : List α} (h : a <+: b) :
    x ++ a <+: x ++ b := by
  obtain ⟨s, rfl⟩ := h
  exact ⟨s, by simp⟩

/-- Prefixes are preserved by consing a common head. -/
theorem prefix_cons_same {α : Type} {c : α} {a b : List α} (h : a <+: b) :
    c :: a <+: c :: b := by
  obtain ⟨s, rfl⟩ := h
  exact ⟨s, rfl⟩

/-- A prefix of a list is a prefix of any right extension of it. -/
theorem prefix_extend {α : Type} {l a : List α} (b : List α) (h : l <+: a) :
    l <+: a ++ b := by
  obtain ⟨s, rfl⟩ := h
  exact ⟨s ++ b, by simp⟩

/-- The non-consultation restriction distributes over append. -/
theorem nonCheck_append (a b : List Event) :
    nonCheck (a ++ b) = nonCheck a ++ nonCheck b := by
  simp [nonCheck, List.filter_append]

/-- A consultation disappears from the non-consultation restriction. -/
theorem nonCheck_cons_checked (k : Nat) (b : Bool) (l : List Event) :
    nonCheck (Event.checked k b :: l) = nonCheck l := by
  simp [nonCheck, List.filter_cons, isChecked]

/-- A list of cleared-flag consultations has an empty non-consultation
restriction. -/
theorem nonCheck_nil_of_all_dead {l : List Event}
    (h : l.all isDeadCheck = true) : nonCheck l = [] := by
  rw [List.all_eq_true] at h
  rw [nonCheck, List.filter_eq_nil_iff]
  intro e he
  simp [isChecked_of_isDeadCheck (h e he)]

/-- Per-item processing emits no flag consultation. -/
theorem processFile_noCheck (voice dirpath fn : Str) (rd : ReadResult)
    (inv : InvokeResult) (u : Bool) (p total : Nat) :
    ∀ e ∈ (processFile voice dirpath fn rd inv u p total).1,
      isChecked e = false := by
  intro e he
  cases rd with
  | failed err =>
    simp [processFile] at he
    rcases he with rfl | rfl | rfl <;> rfl
  | ok raw =>
    by_cases hs : pyStrip raw = []
    · simp [processFile, hs] at he
      rcases he with rfl | rfl | rfl <;> rfl
    · cases inv with
      | completed rc so se =>
        by_cases hrc : rc = 0 <;> simp [processFile, hs, hrc] at he <;>
          rcases he with rfl | rfl | rfl | rfl | rfl | rfl <;> rfl
      | timedOut =>
        simp [processFile, hs] at he
        rcases he with rfl | rfl | rfl | rfl | rfl <;> rfl
      | raised err =>
        simp [processFile, hs] at he
        rcases he with rfl | rfl | rfl | rfl | rfl <;> rfl

/-- Per-item processing begins with the start signal and emits no
further start signal. -/
theorem processFile_shape (voice dirpath fn : Str) (rd : ReadResult)
    (inv : InvokeResult) (u : Bool) (p total : Nat) :
    ∃ tl, (processFile voice dirpath fn rd inv u p total).1 =
      Event.sigConverting fn :: tl ∧ ∀ e ∈ tl, isStart e = false := by
  cases rd with
  | failed err =>
    refine ⟨[.sigReadFailed fn err, .progressUpdate (p + 1) total],
      by simp [processFile], ?_⟩
    intro e he
    simp at he
    rcases he with rfl | rfl <;> rfl
  | ok raw =>
    by_cases hs : pyStrip raw = []
    · refine ⟨[.sigSkippedEmpty fn, .progressUpdate (p + 1) total],
        by simp [processFile, hs], ?_⟩
      intro e he
      simp at he
      rcases he with rfl | rfl <;> rfl
    · cases inv with
      | completed rc so se =>
        by_cases hrc : rc = 0
        · refine ⟨[.tmpCreated (pyStrip raw),
            .invoked voice (pyStrip raw) (deriveOutputPath dirpath fn),
            .tmpUnlinkTried u, .sigConverted fn (deriveOutputName fn),
            .progressUpdate (p + 1) total], by simp [processFile, hs, hrc], ?_⟩
          intro e he
          simp at he
          rcases he with rfl | rfl | rfl | rfl | rfl <;> rfl
        · refine ⟨[.tmpCreated (pyStrip raw),
            .invoked voice (pyStrip raw) (deriveOutputPath dirpath fn),
            .tmpUnlinkTried u,
            .sigFailed fn ((pyOr se (pyOr so msgUnknownErr)).take 100),
            .progressUpdate (p + 1) total], by simp [processFile, hs, hrc], ?_⟩
          intro e he
          simp at he
          rcases he with rfl | rfl | rfl | rfl | rfl <;> rfl
      | timedOut =>
        refine ⟨[.tmpCreated (pyStrip raw),
          .invoked voice (pyStrip raw) (deriveOutputPath dirpath fn),
          .sigTimeout fn, .progressUpdate (p + 1) total],
          by simp [processFile, hs], ?_⟩
        intro e he
        simp at he
        rcases he with rfl | rfl | rfl | rfl <;> rfl
      | raised err =>
        refine ⟨[.tmpCreated (pyStrip raw),
          .invoked voice (pyStrip raw) (deriveOutputPath dirpath fn),
          .sigError fn err, .progressUpdate (p + 1) total],
          by simp [processFile, hs], ?_⟩
        intro e he
        simp at he
        rcases he with rfl | rfl | rfl | rfl <;> rfl

/-- With the flag never cleared, the inner loop's trace has no
cleared-flag consultation. -/
theorem fileLoop_none_noDead (filt voice : Str) (env : Env) (d : Str)
    (total : Nat) (fns : List Str) (p k : Nat) :
    ∀ e ∈ (fileLoop filt voice env none d total fns p k).trace,
      isDeadCheck e = false := by
  induction fns generalizing p k with
  | nil => simp [fileLoop]
  | cons fn rest ih =>
    intro e he
    cases hm : matches_filter filt fn with
    | true =>
      simp [fileLoop, aliveFlag, hm] at he
      rcases he with rfl | he | he
      · rfl
      · exact isDeadCheck_eq_false_of_not_checked
          (processFile_noCheck _ _ _ _ _ _ _ _ e he)
      · exact ih _ _ e he
    | false =>
      simp [fileLoop, aliveFlag, hm] at he
      rcases he with rfl | he
      · rfl
      · exact ih _ _ e he

/-- With the flag never cleared, the scan's trace has no cleared-flag
consultation. -/
theorem dirLoop_none_noDead (filt voice : Str) (env : Env) (total : Nat)
    (walk : List DirEntry) (p k : Nat) :
    ∀ e ∈ (dirLoop filt voice env none total walk p k).trace,
      isDeadCheck e = false := by
  induction walk generalizing p k with
  | nil => simp [dirLoop]
  | cons d rest ih =>
    intro e he
    simp [dirLoop, aliveFlag] at he
    rcases he with rfl | he | he
    · rfl
    · exact fileLoop_none_noDead _ _ _ _ _ _ _ _ e he
    · exact ih _ _ e he

/-- A scan started with the flag already cleared consults the flag at
most once, visits nothing, and emits only cleared-flag consultations. -/
theorem dirLoop_stopped (filt voice : Str) (env : Env) (t total : Nat)
    (walk : List DirEntry) (p k : Nat) (h : t ≤ k) :
    (dirLoop filt voice env (some t) total walk p k).trace.all isDeadCheck = true ∧
    (dirLoop filt voice env (some t) total walk p k).visited = [] ∧
    t ≤ (dirLoop filt voice env (some t) total walk p k).checks := by
  have ha : aliveFlag (some t) k = false := by
    simp only [aliveFlag, decide_eq_false_iff_not]
    omega
  cases walk with
  | nil => exact ⟨by simp [dirLoop], by simp [dirLoop], by simp [dirLoop]; omega⟩
  | cons e rest =>
    refine ⟨?_, ?_, ?_⟩ <;> simp [dirLoop, ha, isDeadCheck]
    omega

/-- Either the cancellable inner loop behaves exactly as the
never-cancelled one, or its trace splits into a cleared-check-free part
followed by cleared checks only, the flag budget is exhausted, and its
observable events and visited files are prefixes of the
never-cancelled run's. -/
theorem fileLoop_dichotomy (filt voice : Str) (env : Env) (d : Str)
    (total t : Nat) : ∀ (fns : List Str) (p k : Nat),
    fileLoop filt voice env (some t) d total fns p k =
      fileLoop filt voice env none d total fns p k ∨
    (∃ pre tail,
      (fileLoop filt voice env (some t) d total fns p k).trace = pre ++ tail ∧
      (∀ e ∈ pre, isDeadCheck e = false) ∧
      tail.all isDeadCheck = true ∧
      t ≤ (fileLoop filt voice env (some t) d total fns p k).checks ∧
      nonCheck pre <+: nonCheck (fileLoop filt voice env none d total fns p k).trace ∧
      (fileLoop filt voice env (some t) d total fns p k).visited <+:
        (fileLoop filt voice env none d total fns p k).visited) := by
  intro fns
  induction fns with
  | nil => intro p k; exact Or.inl rfl
  | cons fn rest ih =>
    intro p k
    by_cases hk : k < t
    · have haS : aliveFlag (some t) k = true := by
        simp only [aliveFlag, decide_eq_true_eq]; exact hk
      have haN : aliveFlag none k = true := rfl
      cases hm : matches_filter filt fn with
      | true =>
        have hLS : fileLoop filt voice env (some t) d total (fn :: rest) p k =
            ⟨Event.checked k true ::
                (processFile voice d fn (env.read (osJoin d fn))
                  (env.invoke (osJoin d fn)) (env.unlinkOk (osJoin d fn)) p total).1 ++
                (fileLoop filt voice env (some t) d total rest
                  (processFile voice d fn (env.read (osJoin d fn))
                    (env.invoke (osJoin d fn)) (env.unlinkOk (osJoin d fn)) p total).2
                  (k + 1)).trace,
              osJoin d fn ::
                (fileLoop filt voice env (some t) d total rest
                  (processFile voice d fn (env.read (osJoin d fn))
                    (env.invoke (osJoin d fn)) (env.unlinkOk (osJoin d fn)) p total).2
                  (k + 1)).visited,
              (fileLoop filt voice env (some t) d total rest
                (processFile voice d fn (env.read (osJoin d fn))
                  (env.invoke (osJoin d fn)) (env.unlinkOk (osJoin d fn)) p total).2
                (k + 1)).processed,
              (fileLoop filt voice env (some t) d total rest
                (processFile voice d fn (env.read (osJoin d fn))
                  (env.invoke (osJoin d fn)) (env.unlinkOk (osJoin d fn)) p total).2
                (k + 1)).checks⟩ := by
          simp only [fileLoop, haS, hm, if_true]
        have hRN : fileLoop filt voice env none d total (fn :: rest) p k =
            ⟨Event.checked k true ::
                (processFile voice d fn (env.read (osJoin d fn))
                  (env.invoke (osJoin d fn)) (env.unlinkOk (osJoin d fn)) p total).1 ++
                (fileLoop filt voice env none d total rest
                  (processFile voice d fn (env.read (osJoin d fn))
                    (env.invoke (osJoin d fn)) (env.unlinkOk (osJoin d fn)) p total).2
                  (k + 1)).trace,
              osJoin d fn ::
                (fileLoop filt voice env none d total rest
                  (processFile voice d fn (env.read (osJoin d fn))
                    (env.invoke (osJoin d fn)) (env.unlinkOk (osJoin d fn)) p total).2
                  (k + 1)).visited,
              (fileLoop filt voice env none d total rest
                (processFile voice d fn (env.read (osJoin d fn))
                  (env.invoke (osJoin d fn)) (env.unlinkOk (osJoin d fn)) p total).2
                (k + 1)).processed,
              (fileLoop filt voice env none d total rest
                (processFile voice d fn (env.read (osJoin d fn))
                  (env.invoke (osJoin d fn)) (env.unlinkOk (osJoin d fn)) p total).2
                (k + 1)).checks⟩ := by
          simp only [fileLoop, haN, hm, if_true]
        rcases ih (processFile voice d fn (env.read (osJoin d fn))
            (env.invoke (osJoin d fn)) (env.unlinkOk (osJoin d fn)) p total).2
            (k + 1) with heq | ⟨pre, tail, htr, hpre, htail, hchk, hpfx, hvis⟩
        · left
          rw [hLS, hRN, heq]
        · right
          refine ⟨Event.checked k true ::
              (processFile voice d fn (env.read (osJoin d fn))
                (env.invoke (osJoin d fn)) (env.unlinkOk (osJoin d fn)) p total).1 ++
              pre, tail, ?_, ?_, htail, ?_, ?_, ?_⟩
          · rw [hLS]
            simp only [htr, List.cons_append, List.append_assoc]
          · intro e he
            rcases List.mem_cons.mp he with rfl | he2
            · rfl
            · rcases List.mem_append.mp he2 with h3 | h3
              · exact isDeadCheck_eq_false_of_not_checked
                  (processFile_noCheck _ _ _ _ _ _ _ _ e h3)
              · exact hpre e h3
          · rw [hLS]
            exact hchk
          · rw [hRN]
            simp only [nonCheck_cons_checked, nonCheck_append]
            exact prefix_append_same hpfx
          · rw [hLS, hRN]
            exact prefix_cons_same hvis
      | false =>
        have hLS : fileLoop filt voice env (some t) d total (fn :: rest) p k =
            ⟨Event.checked k true ::
                (fileLoop filt voice env (some t) d total rest p (k + 1)).trace,
              (fileLoop filt voice env (some t) d total rest p (k + 1)).visited,
              (fileLoop filt voice env (some t) d total rest p (k + 1)).processed,
              (fileLoop filt voice env (some t) d total rest p (k + 1)).checks⟩ := by
          simp only [fileLoop, haS, hm, Bool.false_eq_true, if_false, if_true]
        have hRN : fileLoop filt voice env none d total (fn :: rest) p k =
            ⟨Event.checked k true ::
                (fileLoop filt voice env none d total rest p (k + 1)).trace,
              (fileLoop filt voice env none d total rest p (k + 1)).visited,
              (fileLoop filt voice env none d total rest p (k + 1)).processed,
              (fileLoop filt voice env none d total rest p (k + 1)).checks⟩ := by
          simp only [fileLoop, haN, hm, Bool.false_eq_true, if_false, if_true]
        rcases ih p (k + 1) with heq | ⟨pre, tail, htr, hpre, htail, hchk, hpfx, hvis⟩
        · left
          rw [hLS, hRN, heq]
        · right
          refine ⟨Event.checked k true :: pre, tail, ?_, ?_, htail, ?_, ?_, ?_⟩
          · rw [hLS]
            simp only [htr, List.cons_append]
          · intro e he
            rcases List.mem_cons.mp he with rfl | he2
            · rfl
            · exact hpre e he2
          · rw [hLS]
            exact hchk
          · rw [hRN]
            simp only [nonCheck_cons_checked]
            exact hpfx
          · rw [hLS, hRN]
            exact hvis
    · right
      have haS : aliveFlag (some t) k = false := by
        simp only [aliveFlag, decide_eq_false_iff_not]
        omega
      have hLS : fileLoop filt voice env (some t) d total (fn :: rest) p k =
          ⟨[Event.checked k false], [], p, k + 1⟩ := by
        simp only [fileLoop, haS, Bool.false_eq_true, if_false]
      refine ⟨[], [Event.checked k false], ?_, by simp, by simp [isDeadCheck], ?_, ?_, ?_⟩
      · rw [hLS]
        rfl
      · rw [hLS]
        exact Nat.le_succ_of_le (Nat.le_of_not_lt hk)
      · simp [nonCheck]
      · rw [hLS]
        exact List.nil_prefix

/-- Either the cancellable scan behaves exactly as the never-cancelled
one, or its trace splits into a cleared-check-free part followed by
cleared checks only, and its observable events and visited files are
prefixes of the never-cancelled run's. -/
theorem dirLoop_dichotomy (filt voice : Str) (env : Env) (total t : Nat) :
    ∀ (walk : List DirEntry) (p k : Nat),
    dirLoop filt voice env (some t) total walk p k =
      dirLoop filt voice env none total walk p k ∨
    (∃ pre tail,
      (dirLoop filt voice env (some t) total walk p k).trace = pre ++ tail ∧
      (∀ e ∈ pre, isDeadCheck e = false) ∧
      tail.all isDeadCheck = true ∧
      nonCheck pre <+: nonCheck (dirLoop filt voice env none total walk p k).trace ∧
      (dirLoop filt voice env (some t) total walk p k).visited <+:
        (dirLoop filt voice env none total walk p k).visited) := by
  intro walk
  induction walk with
  | nil => intro p k; exact Or.inl rfl
  | cons d rest ih =>
    intro p k
    by_cases hk : k < t
    · have haS : aliveFlag (some t) k = true := by
        simp only [aliveFlag, decide_eq_true_eq]; exact hk
      have haN : aliveFlag none k = true := rfl
      have hLS : dirLoop filt voice env (some t) total (d :: rest) p k =
          ⟨Event.checked k true ::
              (fileLoop filt voice env (some t) d.dirpath total d.filenames p
                (k + 1)).trace ++
              (dirLoop filt voice env (some t) total rest
                (fileLoop filt voice env (some t) d.dirpath total d.filenames p
                  (k + 1)).processed
                (fileLoop filt voice env (some t) d.dirpath total d.filenames p
                  (k + 1)).checks).trace,
            (fileLoop filt voice env (some t) d.dirpath total d.filenames p
              (k + 1)).visited ++
              (dirLoop filt voice env (some t) total rest
                (fileLoop filt voice env (some t) d.dirpath total d.filenames p
                  (k + 1)).processed
                (fileLoop filt voice env (some t) d.dirpath total d.filenames p
                  (k + 1)).checks).visited,
            (dirLoop filt voice env (some t) total rest
              (fileLoop filt voice env (some t) d.dirpath total d.filenames p
                (k + 1)).processed
              (fileLoop filt voice env (some t) d.dirpath total d.filenames p
                (k + 1)).checks).processed,
            (dirLoop filt voice env (some t) total rest
              (fileLoop filt voice env (some t) d.dirpath total d.filenames p
                (k + 1)).processed
              (fileLoop filt voice env (some t) d.dirpath total d.filenames p
                (k + 1)).checks).checks⟩ := by
        simp only [dirLoop, haS, if_true]
      have hRN : dirLoop filt voice env none total (d :: rest) p k =
          ⟨Event.checked k true ::
              (fileLoop filt voice env none d.dirpath total d.filenames p
                (k + 1)).trace ++
              (dirLoop filt voice env none total rest
                (fileLoop filt voice env none d.dirpath total d.filenames p
                  (k + 1)).processed
                (fileLoop filt voice env none d.dirpath total d.filenames p
                  (k + 1)).checks).trace,
            (fileLoop filt voice env none d.dirpath total d.filenames p
              (k + 1)).visited ++
              (dirLoop filt voice env none total rest
                (fileLoop filt voice env none d.dirpath total d.filenames p
                  (k + 1)).processed
                (fileLoop filt voice env none d.dirpath total d.filenames p
                  (k + 1)).checks).visited,
            (dirLoop filt voice env none total rest
              (fileLoop filt voice env none d.dirpath total d.filenames p
                (k + 1)).processed
              (fileLoop filt voice env none d.dirpath total d.filenames p
                (k + 1)).checks).processed,
            (dirLoop filt voice env none total rest
              (fileLoop filt voice env none d.dirpath total d.filenames p
                (k + 1)).processed
              (fileLoop filt voice env none d.dirpath total d.filenames p
                (k + 1)).checks).checks⟩ := by
        simp only [dirLoop, haN, if_true]
      rcases fileLoop_dichotomy filt voice env d.dirpath total t d.filenames p
          (k + 1) with hinner | ⟨ipre, itail, hitr, hipre, hitail, hichk, hipfx, hivis⟩
      · rcases ih (fileLoop filt voice env none d.dirpath total d.filenames p
            (k + 1)).processed
            (fileLoop filt voice env none d.dirpath total d.filenames p
              (k + 1)).checks with houter | ⟨opre, otail, hotr, hopre, hotail, hopfx, hovis⟩
        · left
          rw [hLS, hRN, hinner, houter]
        · right
          refine ⟨Event.checked k true ::
              (fileLoop filt voice env none d.dirpath total d.filenames p
                (k + 1)).trace ++ opre, otail, ?_, ?_, hotail, ?_, ?_⟩
          · rw [hLS, hinner, hotr]
            simp only [List.cons_append, List.append_assoc]
          · intro e he
            rcases List.mem_cons.mp he with rfl | he2
            · rfl
            · rcases List.mem_append.mp he2 with h3 | h3
              · exact fileLoop_none_noDead _ _ _ _ _ _ _ _ e h3
              · exact hopre e h3
          · rw [hRN]
            simp only [nonCheck_cons_checked, nonCheck_append]
            exact prefix_append_same hopfx
          · rw [hLS, hRN, hinner]
            exact prefix_append_same hovis
      · obtain ⟨hostAll, hostVis, _⟩ := dirLoop_stopped filt voice env t total rest
          (fileLoop filt voice env (some t) d.dirpath total d.filenames p
            (k + 1)).processed
          (fileLoop filt voice env (some t) d.dirpath total d.filenames p
            (k + 1)).checks hichk
        right
        refine ⟨Event.checked k true :: ipre,
          itail ++ (dirLoop filt voice env (some t) total rest
            (fileLoop filt voice env (some t) d.dirpath total d.filenames p
              (k + 1)).processed
            (fileLoop filt voice env (some t) d.dirpath total d.filenames p
              (k + 1)).checks).trace, ?_, ?_, ?_, ?_, ?_⟩
        · rw [hLS]
          simp only [hitr, List.cons_append, List.append_assoc]
        · intro e he
          rcases List.mem_cons.mp he with rfl | he2
          · rfl
          · exact hipre e he2
        · rw [List.all_append, hitail, hostAll]
          rfl
        · rw [hRN]
          simp only [nonCheck_cons_checked, nonCheck_append]
          exact prefix_extend _ hipfx
        · rw [hLS, hRN, hostVis]
          rw [List.append_nil]
          exact prefix_extend _ hivis
    · right
      have haS : aliveFlag (some t) k = false := by
        simp only [aliveFlag, decide_eq_false_iff_not]
        omega
      have hLS : dirLoop filt voice env (some t) total (d :: rest) p k =
          ⟨[Event.checked k false], [], p, k + 1⟩ := by
        simp only [dirLoop, haS, Bool.false_eq_true, if_false]
      refine ⟨[], [Event.checked k false], ?_, by simp, by simp [isDeadCheck],
        ?_, ?_⟩
      · rw [hLS]
        rfl
      · simp [nonCheck]
      · rw [hLS]
        exact List.nil_prefix

/-- The last event of `prev :: e :: a` is the last event of
`(some e) :: a`. -/
theorem lastOf_cons (prev : Option Event) (e : Event) (a : List Event) :
    lastOf prev (e :: a) = lastOf (some e) a := by
  cases a with
  | nil => simp [lastOf]
  | cons x xs =>
    unfold lastOf
    rw [List.getLast?_cons_cons]
    cases hgl : (x :: xs).getLast? with
    | some y => rfl
    | none =>
      rw [List.getLast?_eq_none_iff] at hgl
      exact absurd hgl (List.cons_ne_nil x xs)

/-- Start events remain properly preceded across an append when each
part is properly preceded, the second relative to the last event of the
first. -/
theorem startsChecked_append {b : List Event} : ∀ (a : List Event)
    (prev : Option Event), startsChecked prev a = true →
    startsChecked (lastOf prev a) b = true →
    startsChecked prev (a ++ b) = true := by
  intro a
  induction a with
  | nil =>
    intro prev _ hb
    exact hb
  | cons e a2 ih =>
    intro prev ha hb
    rw [lastOf_cons] at hb
    rw [List.cons_append]
    simp only [startsChecked, Bool.and_eq_true] at ha ⊢
    exact ⟨ha.1, ih (some e) ha.2 hb⟩

/-- A list without start events is trivially properly preceded. -/
theorem startsChecked_of_noStarts : ∀ (l : List Event),
    (∀ e ∈ l, isStart e = false) → ∀ prev, startsChecked prev l = true := by
  intro l
  induction l with
  | nil => intro _ prev; rfl
  | cons e l2 ih =>
    intro h prev
    simp only [startsChecked, Bool.and_eq_true]
    constructor
    · simp [h e (by simp)]
    · exact ih (fun x hx => h x (by simp [hx])) (some e)

/-- In the inner loop every file start is directly preceded by a
consultation that observed a set flag. -/
theorem fileLoop_startsChecked (filt voice : Str) (env : Env)
    (stopAt : Option Nat) (d : Str) (total : Nat) : ∀ (fns : List Str)
    (p k : Nat) (prev : Option Event),
    startsChecked prev (fileLoop filt voice env stopAt d total fns p k).trace
      = true := by
  intro fns
  induction fns with
  | nil => intro p k prev; rfl
  | cons fn rest ih =>
    intro p k prev
    cases ha : aliveFlag stopAt k with
    | false =>
      simp [fileLoop, ha, startsChecked, isStart]
    | true =>
      cases hm : matches_filter filt fn with
      | true =>
        have hsh : fileLoop filt voice env stopAt d total (fn :: rest) p k =
            ⟨Event.checked k true ::
                (processFile voice d fn (env.read (osJoin d fn))
                  (env.invoke (osJoin d fn)) (env.unlinkOk (osJoin d fn)) p total).1 ++
                (fileLoop filt voice env stopAt d total rest
                  (processFile voice d fn (env.read (osJoin d fn))
                    (env.invoke (osJoin d fn)) (env.unlinkOk (osJoin d fn)) p
                    total).2 (k + 1)).trace,
              osJoin d fn ::
                (fileLoop filt voice env stopAt d total rest
                  (processFile voice d fn (env.read (osJoin d fn))
                    (env.invoke (osJoin d fn)) (env.unlinkOk (osJoin d fn)) p
                    total).2 (k + 1)).visited,
              (fileLoop filt voice env stopAt d total rest
                (processFile voice d fn (env.read (osJoin d fn))
                  (env.invoke (osJoin d fn)) (env.unlinkOk (osJoin d fn)) p
                  total).2 (k + 1)).processed,
              (fileLoop filt voice env stopAt d total rest
                (processFile voice d fn (env.read (osJoin d fn))
                  (env.invoke (osJoin d fn)) (env.unlinkOk (osJoin d fn)) p
                  total).2 (k + 1)).checks⟩ := by
          simp only [fileLoop, ha, hm, if_true]
        rw [hsh]
        obtain ⟨tl, htl, hnostart⟩ := processFile_shape voice d fn
          (env.read (osJoin d fn)) (env.invoke (osJoin d fn))
          (env.unlinkOk (osJoin d fn)) p total
        simp only [startsChecked, isStart, Bool.and_eq_true]
        constructor
        · rfl
        · apply startsChecked_append
          · rw [htl]
            simp only [startsChecked, isStart, isAliveCheck, Bool.and_eq_true]
            exact ⟨rfl, startsChecked_of_noStarts tl hnostart _⟩
          · exact ih _ _ _
      | false =>
        have hsh : fileLoop filt voice env stopAt d total (fn :: rest) p k =
            ⟨Event.checked k true ::
                (fileLoop filt voice env stopAt d total rest p (k + 1)).trace,
              (fileLoop filt voice env stopAt d total rest p (k + 1)).visited,
              (fileLoop filt voice env stopAt d total rest p (k + 1)).processed,
              (fileLoop filt voice env stopAt d total rest p (k + 1)).checks⟩ := by
          simp only [fileLoop, ha, hm, Bool.false_eq_true, if_false, if_true]
        rw [hsh]
        simp only [startsChecked, isStart, Bool.and_eq_true]
        exact ⟨rfl, ih _ _ _⟩

/-- In the scan every file start is directly preceded by a consultation
that observed a set flag. -/
theorem dirLoop_startsChecked (filt voice : Str) (env : Env)
    (stopAt : Option Nat) (total : Nat) : ∀ (walk : List DirEntry)
    (p k : Nat) (prev : Option Event),
    startsChecked prev (dirLoop filt voice env stopAt total walk p k).trace
      = true := by
  intro walk
  induction walk with
  | nil => intro p k prev; rfl
  | cons d rest ih =>
    intro p k prev
    cases ha : aliveFlag stopAt k with
    | false =>
      simp [dirLoop, ha, startsChecked, isStart]
    | true =>
      have hsh : dirLoop filt voice env stopAt total (d :: rest) p k =
          ⟨Event.checked k true ::
              (fileLoop filt voice env stopAt d.dirpath total d.filenames p
                (k + 1)).trace ++
              (dirLoop filt voice env stopAt total rest
                (fileLoop filt voice env stopAt d.dirpath total d.filenames p
                  (k + 1)).processed
                (fileLoop filt voice env stopAt d.dirpath total d.filenames p
                  (k + 1)).checks).trace,
            (fileLoop filt voice env stopAt d.dirpath total d.filenames p
              (k + 1)).visited ++
              (dirLoop filt voice env stopAt total rest
                (fileLoop filt voice env stopAt d.dirpath total d.filenames p
                  (k + 1)).processed
                (fileLoop filt voice env stopAt d.dirpath total d.filenames p
                  (k + 1)).checks).visited,
            (dirLoop filt voice env stopAt total rest
              (fileLoop filt voice env stopAt d.dirpath total d.filenames p
                (k + 1)).processed
              (fileLoop filt voice env stopAt d.dirpath total d.filenames p
                (k + 1)).checks).processed,
            (dirLoop filt voice env stopAt total rest
              (fileLoop filt voice env stopAt d.dirpath total d.filenames p
                (k + 1)).processed
              (fileLoop filt voice env stopAt d.dirpath total d.filenames p
                (k + 1)).checks).checks⟩ := by
        simp only [dirLoop, ha, if_true]
      rw [hsh]
      simp only [startsChecked, isStart, Bool.and_eq_true]
      constructor
      · rfl
      · apply startsChecked_append
        · exact fileLoop_startsChecked _ _ _ _ _ _ _ _ _ _
        · exact ih _ _ _

/-- C7: cancellation is cooperative and takes effect only at item
boundaries.  With the flag cleared from the `t`-th consultation on:
after the first consultation that observes the cleared flag the trace
contains only further cleared-flag consultations (no file start, no
signal, no progress update is emitted once cancellation is
acknowledged); the observable events of the cancelled run form a prefix
of the never-cancelled run's (outcomes already recorded are retained);
the visited files form a prefix of the never-cancelled run's (no file
is started after the flag is cleared); and every file start is directly
preceded by a consultation that observed a set flag (the flag is
consulted before each item, never mid-invocation). -/
theorem c7_cooperative_cancellation (filt voice : Str) (env : Env)
    (walk : List DirEntry) (total t : Nat) :
    quietAfterStop (dirLoop filt voice env (some t) total walk 0 0).trace = true ∧
    nonCheck (dirLoop filt voice env (some t) total walk 0 0).trace <+:
      nonCheck (dirLoop filt voice env none total walk 0 0).trace ∧
    (dirLoop filt voice env (some t) total walk 0 0).visited <+:
      (dirLoop filt voice env none total walk 0 0).visited ∧
    startsChecked none (dirLoop filt voice env (some t) total walk 0 0).trace
      = true := by
  rcases dirLoop_dichotomy filt voice env total t walk 0 0 with
    heq | ⟨pre, tail, htr, hpre, htail, hpfx, hvis⟩
  · refine ⟨?_, ?_, ?_, ?_⟩
    · rw [heq]
      exact quietAfterStop_of_no_dead (dirLoop_none_noDead _ _ _ _ _ _ _)
    · rw [heq]
    · rw [heq]
    · exact dirLoop_startsChecked _ _ _ _ _ _ _ _ _
  · refine ⟨?_, ?_, hvis, ?_⟩
    · rw [htr, quietAfterStop_append hpre]
      exact quietAfterStop_of_all_dead htail
    · rw [htr, nonCheck_append, nonCheck_nil_of_all_dead htail, List.append_nil]
      exact hpfx
    · exact dirLoop_startsChecked _ _ _ _ _ _ _ _ _

/-- In the started state with a truthy timestamp, `update` increments
the completed count and renders the code-side estimate, which equals
the specification formula `(total - completed) * (elapsed / completed)`. -/
theorem update_started (T c : Nat) (t0 now : ℚ) (ht0 : t0 ≠ 0) :
    ProgressEstimator.update ⟨some t0, T, c⟩ now =
      (⟨some t0, T, c + 1⟩,
        if 0 < Int.floor (specEstimate T c (now - t0) / 3600) then
          msgEta ++ intToStr (Int.floor (specEstimate T c (now - t0) / 3600)) ++
            msgHours ++
            intToStr (Int.floor (pyMod (specEstimate T c (now - t0)) 3600 / 60)) ++
            msgMinutes
        else if 0 < Int.floor (pyMod (specEstimate T c (now - t0)) 3600 / 60) then
          msgEta ++
            intToStr (Int.floor (pyMod (specEstimate T c (now - t0)) 3600 / 60)) ++
            msgMinutes ++
            intToStr (Int.floor (pyMod (specEstimate T c (now - t0)) 60)) ++
            msgSeconds
        else
          msgEta ++ intToStr (Int.floor (pyMod (specEstimate T c (now - t0)) 60)) ++
            msgSeconds) := by
  have hest : ((T : ℚ) - ((c + 1 : Nat) : ℚ)) * ((now - t0) / ((c + 1 : Nat) : ℚ)) =
      specEstimate T c (now - t0) := by
    unfold specEstimate
    push_cast
    ring
  have htruthy : pyTruthyTime (some t0) = true := by
    simp [pyTruthyTime, ht0]
  unfold ProgressEstimator.update
  simp only [htruthy]
  rw [if_pos ⟨Nat.succ_pos c, trivial⟩]
  simp only [hest]
  split_ifs <;> rfl

/-- The floor of a rational is positive exactly when the rational is at
least one. -/
theorem floor_pos_iff (x : ℚ) : 0 < Int.floor x ↔ (1 : ℚ) ≤ x := by
  rw [Int.lt_iff_add_one_le, zero_add, Int.le_floor, Int.cast_one]

/-- The floored quotient is positive exactly when the dividend reaches
the divisor. -/
theorem floor_div_pos_iff (e b : ℚ) (hb : 0 < b) :
    0 < Int.floor (e / b) ↔ b ≤ e := by
  rw [floor_pos_iff, le_div_iff₀ hb, one_mul]

/-- The floored quotient of a value below the positive divisor is
zero. -/
theorem floor_div_eq_zero (e b : ℚ) (hb : 0 < b) (h0 : 0 ≤ e) (h : e < b) :
    Int.floor (e / b) = 0 := by
  rw [Int.floor_eq_zero_iff, Set.mem_Ico]
  refine ⟨by positivity, ?_⟩
  rw [div_lt_one hb]
  exact h

/-- The Python modulo of a value already inside `[0, b)` is the value
itself. -/
theorem pyMod_of_lt (e b : ℚ) (hb : 0 < b) (h0 : 0 ≤ e) (h : e < b) :
    pyMod e b = e := by
  unfold pyMod
  rw [floor_div_eq_zero e b hb h0 h]
  simp

/-- C8: one completion increments the completed count; an unstarted
estimator reports the indeterminate message; otherwise the rendered
string is determined by the specification estimate
`(total - completed) * (elapsed / completed)` using only the highest
non-zero unit pair: hours and minutes when the estimate reaches 3600
seconds, else minutes and seconds when it reaches 60 seconds, else
seconds alone. -/
theorem c8_progress_estimator (T c : Nat) (t0 now : ℚ) (ht0 : t0 ≠ 0) :
    ((ProgressEstimator.update ⟨some t0, T, c⟩ now).1 = ⟨some t0, T, c + 1⟩) ∧
    (∀ (T2 c2 : Nat) (now2 : ℚ),
      ProgressEstimator.update ⟨none, T2, c2⟩ now2 =
        (⟨none, T2, c2 + 1⟩, msgCalculating)) ∧
    ((3600 : ℚ) ≤ specEstimate T c (now - t0) →
      (ProgressEstimator.update ⟨some t0, T, c⟩ now).2 =
        msgEta ++ intToStr (Int.floor (specEstimate T c (now - t0) / 3600)) ++
          msgHours ++
          intToStr (Int.floor (pyMod (specEstimate T c (now - t0)) 3600 / 60)) ++
          msgMinutes) ∧
    ((60 : ℚ) ≤ specEstimate T c (now - t0) →
      specEstimate T c (now - t0) < 3600 →
      (ProgressEstimator.update ⟨some t0, T, c⟩ now).2 =
        msgEta ++ intToStr (Int.floor (specEstimate T c (now - t0) / 60)) ++
          msgMinutes ++
          intToStr (Int.floor (pyMod (specEstimate T c (now - t0)) 60)) ++
          msgSeconds) ∧
    ((0 : ℚ) ≤ specEstimate T c (now - t0) →
      specEstimate T c (now - t0) < 60 →
      (ProgressEstimator.update ⟨some t0, T, c⟩ now).2 =
        msgEta ++ intToStr (Int.floor (specEstimate T c (now - t0))) ++
          msgSeconds) := by
  refine ⟨?_, ?_, ?_, ?_, ?_⟩
  · rw [update_started T c t0 now ht0]
  · intro T2 c2 now2
    unfold ProgressEstimator.update
    rw [if_neg (by rintro ⟨-, htr⟩; simp [pyTruthyTime] at htr)]
  · intro h36
    rw [update_started T c t0 now ht0]
    rw [if_pos ((floor_div_pos_iff _ _ (by norm_num)).mpr h36)]
  · intro h60 h36
    have h0 : (0 : ℚ) ≤ specEstimate T c (now - t0) := le_trans (by norm_num) h60
    have hmod : pyMod (specEstimate T c (now - t0)) 3600 =
        specEstimate T c (now - t0) := pyMod_of_lt _ _ (by norm_num) h0 h36
    rw [update_started T c t0 now ht0]
    simp only [hmod]
    rw [if_neg, if_pos ((floor_div_pos_iff _ _ (by norm_num)).mpr h60)]
    rw [floor_div_eq_zero _ _ (by norm_num) h0 h36]
    exact lt_irrefl 0
  · intro h0 h60
    have h36 : specEstimate T c (now - t0) < 3600 :=
      lt_trans h60 (by norm_num)
    have hmod : pyMod (specEstimate T c (now - t0)) 3600 =
        specEstimate T c (now - t0) := pyMod_of_lt _ _ (by norm_num) h0 h36
    have hmod60 : pyMod (specEstimate T c (now - t0)) 60 =
        specEstimate T c (now - t0) := pyMod_of_lt _ _ (by norm_num) h0 h60
    rw [update_started T c t0 now ht0]
    simp only [hmod, hmod60]
    rw [if_neg, if_neg]
    · rw [floor_div_eq_zero _ _ (by norm_num) h0 h60]
      exact lt_irrefl 0
    · rw [floor_div_eq_zero _ _ (by norm_num) h0 h36]
      exact lt_irrefl 0

/-- Witness for C8 at the specification example: total 10, second
completion at elapsed 10 seconds, estimate 8 * (10 / 2) = 40 rendered
as the coarse seconds string. -/
theorem c8_progress_estimator_witness :
    (ProgressEstimator.update ⟨some 5, 10, 1⟩ 15).1.completed_files = 2 ∧
    (ProgressEstimator.update ⟨some 5, 10, 1⟩ 15).2 = "预计剩余时间: 40秒".data := by
  have h := c8_progress_estimator 10 1 5 15 (by norm_num)
  constructor
  · rw [h.1]
  · have h5 := h.2.2.2.2 (by norm_num [specEstimate]) (by norm_num [specEstimate])
    rw [h5]
    have hf : Int.floor (specEstimate 10 1 ((15 : ℚ) - 5)) = 40 := by
      have : specEstimate 10 1 ((15 : ℚ) - 5) = 40 := by
        norm_num [specEstimate]
      rw [this]
      exact Int.floor_intCast 40
    rw [hf]
    decide
